import Mathlib

/-!
# Verification of the QR keychain generator (`main.py`)

This file shallowly embeds the geometric-modeling pipeline of the keychain
generator: the CSG shape language used through `solid2` (cubes, cylinders,
hulls, translations, the X mirror, boolean union/difference), the QR relief
builder `qr_code_to_3d_model`, the rounded body builder
`create_keychain_body`, the overlay assembler `assemble_colored_components`,
the plate-layout arithmetic of `main`, and the batch loop of `main` that
accumulates tags into plates and exports them.

Real numbers of the source are modeled by `ℚ`; Python's `int()` truncation,
`math.floor`, floor division `//` and modulo `%` are modeled exactly
(`pyint`, `Int.floor`, `Int.fdiv`, `Int.fmod`).  Shapes are a syntax tree
(`Solid`) mirroring the `solid2` expressions built by the source, with a
denotational point-set semantics `sem` over `ℚ × ℚ × ℚ`; the external text
renderer is an uninterpreted parameter `TI` of the semantics.
-/

/-- Points of the geometry: (x, y, z) over `ℚ`. -/
abbrev Pt : Type := ℚ × ℚ × ℚ

/-- Python `int()` applied to a real number: truncation toward zero. -/
def pyint (q : ℚ) : ℤ := if 0 ≤ q then ⌊q⌋ else ⌈q⌉

/-- Syntax of the `solid2` shape expressions built by `main.py`.
`cube a b c` is the axis-aligned box `[0,a]×[0,b]×[0,c]`; `cylinder r h` is
the upright cylinder of radius `r`, `z ∈ [0,h]`, centered on the z-axis;
`textShape data size halign valign font` is the (external) 2-D text shape;
`linearExtrude h s` extrudes a 2-D shape to `z ∈ [0,h]`; `hull2` is the
convex hull of two shapes; `mirrorX` reflects the x coordinate (the
`mirrorX()` method of `solid2`); `color` is a visual annotation only. -/
inductive Solid : Type where
  | empty : Solid
  | cube : ℚ → ℚ → ℚ → Solid
  | cylinder : ℚ → ℚ → Solid
  | textShape : String → ℚ → String → String → String → Solid
  | linearExtrude : ℚ → Solid → Solid
  | translate : ℚ → ℚ → ℚ → Solid → Solid
  | mirrorX : Solid → Solid
  | union : Solid → Solid → Solid
  | diff : Solid → Solid → Solid
  | hull2 : Solid → Solid → Solid
  | color : String → Solid → Solid
deriving DecidableEq

instance : Inhabited Solid := ⟨Solid.empty⟩

instance : Add Solid := ⟨Solid.union⟩

instance : Sub Solid := ⟨Solid.diff⟩

/-- Movement method `.right(d)` of solid2: translate `+d` along x. -/
def Solid.right (s : Solid) (d : ℚ) : Solid := Solid.translate d 0 0 s

/-- Movement method `.left(d)` of solid2: translate `-d` along x. -/
def Solid.left (s : Solid) (d : ℚ) : Solid := Solid.translate (-d) 0 0 s

/-- Movement method `.forward(d)` of solid2: translate `+d` along y. -/
def Solid.forward (s : Solid) (d : ℚ) : Solid := Solid.translate 0 d 0 s

/-- Movement method `.back(d)` of solid2: translate `-d` along y. -/
def Solid.back (s : Solid) (d : ℚ) : Solid := Solid.translate 0 (-d) 0 s

/-- Movement method `.up(d)` of solid2: translate `+d` along z. -/
def Solid.up (s : Solid) (d : ℚ) : Solid := Solid.translate 0 0 d s

/-- Movement method `.down(d)` of solid2: translate `-d` along z. -/
def Solid.down (s : Solid) (d : ℚ) : Solid := Solid.translate 0 0 (-d) s

/-- Type of interpretations of the external text renderer: for each
(data, size, halign, valign, font) a 2-D point set. -/
abbrev TextInterp : Type := String → ℚ → String → String → String → Set (ℚ × ℚ)

/-- Denotational point-set semantics of `Solid`, parameterized by an
interpretation `TI` of the external text renderer. -/
def sem (TI : TextInterp) : Solid → Set Pt
  | Solid.empty => ∅
  | Solid.cube a b c =>
      {p | 0 ≤ p.1 ∧ p.1 ≤ a ∧ 0 ≤ p.2.1 ∧ p.2.1 ≤ b ∧ 0 ≤ p.2.2 ∧ p.2.2 ≤ c}
  | Solid.cylinder r h =>
      {p | p.1 ^ 2 + p.2.1 ^ 2 ≤ r ^ 2 ∧ 0 ≤ p.2.2 ∧ p.2.2 ≤ h}
  | Solid.textShape data size ha va font =>
      {p | (p.1, p.2.1) ∈ TI data size ha va font ∧ p.2.2 = 0}
  | Solid.linearExtrude h s =>
      {p | (∃ q ∈ sem TI s, p.1 = q.1 ∧ p.2.1 = q.2.1) ∧ 0 ≤ p.2.2 ∧ p.2.2 ≤ h}
  | Solid.translate a b c s =>
      {p | (p.1 - a, p.2.1 - b, p.2.2 - c) ∈ sem TI s}
  | Solid.mirrorX s => {p | (-p.1, p.2.1, p.2.2) ∈ sem TI s}
  | Solid.union s t => sem TI s ∪ sem TI t
  | Solid.diff s t => sem TI s \ sem TI t
  | Solid.hull2 s t => convexHull ℚ (sem TI s ∪ sem TI t)
  | Solid.color _ s => sem TI s

/-- The trivial text interpretation (empty text shapes), used to state
closed facts about solids that contain no text. -/
def TI0 : TextInterp := fun _ _ _ _ _ => ∅

theorem sem_union (TI : TextInterp) (s t : Solid) :
    sem TI (s + t) = sem TI s ∪ sem TI t := rfl

theorem sem_diff (TI : TextInterp) (s t : Solid) :
    sem TI (s - t) = sem TI s \ sem TI t := rfl

theorem sem_mirrorX_mirrorX (TI : TextInterp) (s : Solid) :
    sem TI (Solid.mirrorX (Solid.mirrorX s)) = sem TI s := by
  ext p
  simp [sem]

theorem mem_sem_translate (TI : TextInterp) (a b c : ℚ) (s : Solid) (p : Pt) :
    p ∈ sem TI (Solid.translate a b c s) ↔
      (p.1 - a, p.2.1 - b, p.2.2 - c) ∈ sem TI s := Iff.rfl

theorem sem_translate_translate (TI : TextInterp) (a b c a' b' c' : ℚ)
    (s : Solid) :
    sem TI (Solid.translate a b c (Solid.translate a' b' c' s)) =
      sem TI (Solid.translate (a + a') (b + b') (c + c') s) := by
  ext p
  simp only [sem, Set.mem_setOf_eq]
  have e : (p.1 - a - a', p.2.1 - b - b', p.2.2 - c - c') =
      (p.1 - (a + a'), p.2.1 - (b + b'), p.2.2 - (c + c')) := by
    simp only [Prod.mk.injEq]
    exact ⟨by ring, by ring, by ring⟩
  rw [e]

/-- The configuration record of `main.py` (dataclass `Args`), with the
source's default values.  Floats are modeled by `ℚ`. -/
structure Args where
  start_index : ℤ := 1
  end_index : ℤ := 1
  output_dir : String := "output"
  token_width : ℚ := 50
  token_height : ℚ := 60
  token_depth : ℚ := 3
  token_corner_radius : ℚ := 4
  token_fillet_radius : ℚ := 1
  qr_border : ℚ := 3
  colored_print_depth : ℚ := 3/5
  text_font : String := "Helvetica"
  text_size : ℚ := 7
  text_border : ℚ := 3
  hole_radius : ℚ := 3
  hole_offset : ℚ := 3
  build_plate_width : ℚ := 254
  build_plate_height : ℚ := 254
  build_plate_spacing : ℚ := 1
deriving DecidableEq

/-- The default configuration (all dataclass defaults). -/
def defaultArgs : Args := {}

/-- Line 140 of `main.py`:
`num_per_row = int(build_plate_width / (token_width + build_plate_spacing))`. -/
def num_per_row (a : Args) : ℤ :=
  pyint (a.build_plate_width / (a.token_width + a.build_plate_spacing))

/-- Line 141 of `main.py`:
`num_per_column = int(build_plate_height / (token_height + build_plate_spacing))`. -/
def num_per_column (a : Args) : ℤ :=
  pyint (a.build_plate_height / (a.token_height + a.build_plate_spacing))

/-- Line 142 of `main.py`: `tokens_per_plate = num_per_row * num_per_column`. -/
def tokens_per_plate (a : Args) : ℤ := num_per_row a * num_per_column a

/-- Line 163 of `main.py`:
`position_index = (i - start_index) % tokens_per_plate` (Python floor mod). -/
def position_index (a : Args) (i : ℤ) : ℤ :=
  Int.fmod (i - a.start_index) (tokens_per_plate a)

/-- Line 164 of `main.py`: `row = position_index // num_per_row`
(Python floor division). -/
def rowOf (a : Args) (i : ℤ) : ℤ := Int.fdiv (position_index a i) (num_per_row a)

/-- Line 165 of `main.py`: `col = position_index % num_per_row`. -/
def colOf (a : Args) (i : ℤ) : ℤ := Int.fmod (position_index a i) (num_per_row a)

/-- Line 166 of `main.py`:
`x_offset = col * (token_width + build_plate_spacing)`. -/
def x_offset (a : Args) (i : ℤ) : ℚ :=
  (colOf a i : ℚ) * (a.token_width + a.build_plate_spacing)

/-- Line 167 of `main.py`:
`y_offset = row * (token_height + build_plate_spacing)`. -/
def y_offset (a : Args) (i : ℤ) : ℚ :=
  (rowOf a i : ℚ) * (a.token_height + a.build_plate_spacing)

/-- One true QR cell of `qr_code_to_3d_model` (line 47 of `main.py`):
`cube(pixel_size, pixel_size, depth).right(x * pixel_size).forward(y * pixel_size)`. -/
def qrCell (ps depth : ℚ) (y x : ℕ) : Solid :=
  ((Solid.cube ps ps depth).right ((x : ℚ) * ps)).forward ((y : ℚ) * ps)

/-- Inner loop of `qr_code_to_3d_model`: fold one enumerated row of the
matrix into the accumulated union, adding a cell cube for each true cell. -/
def qrCellStep (ps depth : ℚ) (y : ℕ) (acc : Solid) (xc : ℕ × Bool) : Solid :=
  if xc.2 then acc + qrCell ps depth y xc.1 else acc

/-- Outer loop of `qr_code_to_3d_model`: fold the enumerated rows. -/
def qrRowStep (ps depth : ℚ) (acc : Solid) (yrow : ℕ × List Bool) : Solid :=
  yrow.2.enum.foldl (qrCellStep ps depth yrow.1) acc

/-- Geometric part of `qr_code_to_3d_model` (lines 39-49 of `main.py`), for
a given boolean matrix (the matrix itself comes from the external `qrcode`
collaborator): `pixel_size = qr_width / num_cells`, union a
`pixel_size × pixel_size × depth` cube at `(x*pixel_size, y*pixel_size, 0)`
for every true cell, and tag the result with color "black". -/
def qr_code_to_3d_model (matrix : List (List Bool)) (qr_width : ℚ)
    (depth : ℚ) : Solid :=
  let num_cells : ℕ := matrix.length
  let pixel_size : ℚ := qr_width / (num_cells : ℚ)
  Solid.color "black"
    (matrix.enum.foldl (qrRowStep pixel_size depth) Solid.empty)

/-- Line 60 of `main.py`: the core inset prism
`cube([width - 2*radius, height - 2*radius, depth]).right(radius).forward(radius)`. -/
def main_core (width height depth radius : ℚ) : Solid :=
  ((Solid.cube (width - 2 * radius) (height - 2 * radius) depth).right
    radius).forward radius

/-- Lines 61-68 of `main.py`: the four corner cylinders
`cylinder(r=radius, h=depth)` translated to the inset corners, in source
order. -/
def keychain_corners (width height depth radius : ℚ) : List Solid :=
  let corner_cylinder := Solid.cylinder radius depth
  [(corner_cylinder.right radius).forward radius,
   (corner_cylinder.right (width - radius)).forward radius,
   (corner_cylinder.right (width - radius)).forward (height - radius),
   (corner_cylinder.right radius).forward (height - radius)]

/-- Lines 70-79 of `main.py`: hull the four cyclically adjacent corner
pairs and union the panels onto the core prism. -/
def keychain_rounded (width height depth radius : ℚ) : Solid :=
  let corners := keychain_corners width height depth radius
  let rounded_edges :=
    [Solid.hull2 corners[0]! corners[1]!,
     Solid.hull2 corners[1]! corners[2]!,
     Solid.hull2 corners[2]! corners[3]!,
     Solid.hull2 corners[3]! corners[0]!]
  rounded_edges.foldl (fun acc s => acc + s) (main_core width height depth radius)

/-- Lines 81-86 of `main.py`: the subtracted hole cylinder
`cylinder(r=hole_radius, h=depth + 2)
  .right(width - hole_offset - hole_radius)
  .forward(height - hole_offset - (hole_radius * 2))
  .back(-1)`. -/
def keychain_hole (width height depth hole_radius hole_offset : ℚ) : Solid :=
  (((Solid.cylinder hole_radius (depth + 2)).right
      (width - hole_offset - hole_radius)).forward
      (height - hole_offset - hole_radius * 2)).back (-1)

/-- The function `create_keychain_body` of `main.py` (lines 52-89): rounded
body minus hole cylinder, tagged with color "white". -/
def create_keychain_body (width height depth radius hole_radius
    hole_offset : ℚ) : Solid :=
  Solid.color "white"
    (keychain_rounded width height depth radius -
      keychain_hole width height depth hole_radius hole_offset)

/-- The function `add_text` of `main.py` (lines 92-97): note the font is
the literal "Helvetica", not a parameter. -/
def add_text (data : String) (size : ℚ) (depth : ℚ) : Solid :=
  Solid.color "black"
    (Solid.linearExtrude depth
      (Solid.textShape data size "center" "top" "Helvetica"))

/-- The qr part of the front overlay (lines 197-199 of `main.py`): qr
relief at `(qr_border, qr_border)` raised to
`token_depth - colored_print_depth`. -/
def front_qr_component (qr_model : Solid) (a : Args) : Solid :=
  ((qr_model.right a.qr_border).forward a.qr_border).up
    (a.token_depth - a.colored_print_depth)

/-- The text part of the front overlay (lines 199-201 of `main.py`): text
relief at `(text_offset, token_height - text_border)` raised to
`token_depth - colored_print_depth`. -/
def front_text_component (text_model : Solid) (a : Args)
    (text_offset : ℚ) : Solid :=
  ((text_model.right text_offset).forward
      (a.token_height - a.text_border)).up
    (a.token_depth - a.colored_print_depth)

/-- The front overlay of `assemble_colored_components` (lines 197-201 of
`main.py`). -/
def front_colored (qr_model text_model : Solid) (a : Args)
    (text_offset : ℚ) : Solid :=
  front_qr_component qr_model a +
    front_text_component text_model a text_offset

/-- The pre-mirror geometry of the back overlay (the argument of the two
`mirrorX()` calls on lines 204-205 of `main.py`, as one union). -/
def back_pre_mirror (qr_model text_model : Solid) (a : Args)
    (text_offset : ℚ) : Solid :=
  (qr_model.left (a.token_width - a.qr_border)).forward a.qr_border +
    (text_model.left text_offset).forward (a.token_height - a.text_border)

/-- The back overlay of `assemble_colored_components` (lines 203-206 of
`main.py`): the same reliefs translated to the opposite edge and mirrored
across x (each component mirrored separately, as in the source). -/
def back_colored (qr_model text_model : Solid) (a : Args)
    (text_offset : ℚ) : Solid :=
  ((qr_model.left (a.token_width - a.qr_border)).forward a.qr_border).mirrorX +
    ((text_model.left text_offset).forward
        (a.token_height - a.text_border)).mirrorX

/-- The function `assemble_colored_components` of `main.py`
(lines 196-208): front overlay plus mirrored back overlay. -/
def assemble_colored_components (qr_model text_model : Solid) (a : Args)
    (text_offset : ℚ) : Solid :=
  front_colored qr_model text_model a text_offset +
    back_colored qr_model text_model a text_offset

/-- One exported plate: the 1-based running plate counter used in the
filenames `build_plate_body_<plate>.stl` / `build_plate_colored_<plate>.stl`,
and the items accumulated into the two `union()` accumulators. -/
structure PlateExport (α β : Type) where
  plate : ℕ
  body : List α
  colored : List β
deriving DecidableEq

/-- Body filename of an exported plate (line 150 / 189 of `main.py`). -/
def bodyFileName (n : ℕ) : String := "build_plate_body_" ++ toString n ++ ".stl"

/-- Colored filename of an exported plate (line 151 / 190 of `main.py`). -/
def coloredFileName (n : ℕ) : String :=
  "build_plate_colored_" ++ toString n ++ ".stl"

/-- Loop state of `main` (lines 144-146): the running plate counter, the
two open accumulators, and the exports already performed. -/
structure BatchState (α β : Type) where
  plateIdx : ℕ
  bodyAcc : List α
  coloredAcc : List β
  exports : List (PlateExport α β)
deriving DecidableEq

/-- Errors the loop can raise: `ZeroDivisionError` from `% 0`. -/
inductive PyError : Type where
  | zeroDivision : PyError
deriving DecidableEq

/-- Lines 144-146 of `main.py`: counter 0, fresh accumulators, nothing
exported. -/
def batchInit {α β : Type} : BatchState α β :=
  { plateIdx := 0, bodyAcc := [], coloredAcc := [], exports := [] }

/-- One iteration of the loop body of `main` (lines 147-186), with the
per-tag geometry abstracted into the item functions `tb` (positioned body)
and `tc` (positioned colored overlay): on a multiple of `c`, export the
previous plate (if any), reset the accumulators and bump the counter; then
add the tag's items to the accumulators. -/
def batchStepPure {α β : Type} (tb : ℤ → α) (tc : ℤ → β) (start c : ℤ)
    (st : BatchState α β) (i : ℤ) : BatchState α β :=
  let st' :=
    if Int.fmod (i - start) c = 0 then
      { plateIdx := st.plateIdx + 1
        bodyAcc := []
        coloredAcc := []
        exports := st.exports ++
          if 0 < st.plateIdx then
            [{ plate := st.plateIdx, body := st.bodyAcc,
               colored := st.coloredAcc }]
          else [] }
    else st
  { st' with bodyAcc := st'.bodyAcc ++ [tb i],
             coloredAcc := st'.coloredAcc ++ [tc i] }

/-- The same iteration with Python's error behavior: `% 0` raises
`ZeroDivisionError` (line 148 is evaluated before anything else). -/
def batchStepE {α β : Type} (tb : ℤ → α) (tc : ℤ → β) (start c : ℤ)
    (st : BatchState α β) (i : ℤ) : Except PyError (BatchState α β) :=
  if c = 0 then Except.error PyError.zeroDivision
  else Except.ok (batchStepPure tb tc start c st i)

/-- Python `range(start, e + 1)`: the integers `start, …, e` (empty when
`e < start`). -/
def pyRange (start e : ℤ) : List ℤ :=
  (List.range (e + 1 - start).toNat).map (fun k : ℕ => start + (k : ℤ))

/-- Lines 188-190 of `main.py`: after the loop, export the final open plate
if at least one tag was processed. -/
def batchFinal {α β : Type} (st : BatchState α β) : List (PlateExport α β) :=
  st.exports ++
    if 0 < st.plateIdx then
      [{ plate := st.plateIdx, body := st.bodyAcc, colored := st.coloredAcc }]
    else []

/-- The batch loop of `main` (lines 144-190) without the error case,
meaningful when `c ≠ 0`. -/
def batchRunPure {α β : Type} (tb : ℤ → α) (tc : ℤ → β) (start e c : ℤ) :
    List (PlateExport α β) :=
  batchFinal ((pyRange start e).foldl (batchStepPure tb tc start c) batchInit)

/-- The batch loop of `main` (lines 144-190) with Python's error behavior:
the result is the list of exported plates, or the uncaught
`ZeroDivisionError`. -/
def batchRunE {α β : Type} (tb : ℤ → α) (tc : ℤ → β) (start e c : ℤ) :
    Except PyError (List (PlateExport α β)) :=
  ((pyRange start e).foldlM (batchStepE tb tc start c) batchInit).map batchFinal

/-- Line 157 of `main.py`: `tag_text = f"T-{i}"`. -/
def tag_text (i : ℤ) : String := "T-" ++ toString i

/-- Line 159 of `main.py`: `qr_width=floor(token_width - (qr_border * 2))`. -/
def qrWidthArg (a : Args) : ℤ := ⌊a.token_width - a.qr_border * 2⌋

/-- Lines 158-160 of `main.py`: the per-tag QR relief; the bit matrix comes
from the external `qrcode` collaborator, abstracted as `enc`. -/
def qr_model (enc : String → List (List Bool)) (a : Args) (i : ℤ) : Solid :=
  qr_code_to_3d_model (enc (tag_text i)) ((qrWidthArg a : ℚ))
    a.colored_print_depth

/-- Line 161 of `main.py`: the per-tag text relief.  Note `add_text` is
passed no font. -/
def text_model (a : Args) (i : ℤ) : Solid :=
  add_text (tag_text i) a.text_size a.colored_print_depth

/-- Line 170 of `main.py`: the text x offset
`(token_width - hole_radius - text_border) / 2`. -/
def text_offset_main (a : Args) : ℚ :=
  (a.token_width - a.hole_radius - a.text_border) / 2

/-- Lines 169-171 of `main.py`: the per-tag colored overlay. -/
def tag_colored (enc : String → List (List Bool)) (a : Args) (i : ℤ) :
    Solid :=
  assemble_colored_components (qr_model enc a i) (text_model a i) a
    (text_offset_main a)

/-- Lines 172-180 of `main.py`: the carved per-tag body, built with the
epsilon-shrunk depth `token_depth - 0.00001` and carved by the overlay. -/
def tag_body (enc : String → List (List Bool)) (a : Args) (i : ℤ) : Solid :=
  create_keychain_body a.token_width a.token_height
      (a.token_depth - 1 / 100000) a.token_corner_radius a.hole_radius
      a.hole_offset -
    tag_colored enc a i

/-- Line 182 of `main.py`: `positioned_body = body.translate([x_offset, y_offset, 0])`. -/
def positioned_body (enc : String → List (List Bool)) (a : Args) (i : ℤ) :
    Solid :=
  Solid.translate (x_offset a i) (y_offset a i) 0 (tag_body enc a i)

/-- Line 183 of `main.py`: the positioned colored overlay. -/
def positioned_colored (enc : String → List (List Bool)) (a : Args)
    (i : ℤ) : Solid :=
  Solid.translate (x_offset a i) (y_offset a i) 0 (tag_colored enc a i)

/-- The geometry-producing part of `main` (lines 140-190): all exported
plate accumulators, or the uncaught error. -/
def mainExports (enc : String → List (List Bool)) (a : Args) :
    Except PyError (List (PlateExport Solid Solid)) :=
  batchRunE (positioned_body enc a) (positioned_colored enc a)
    a.start_index a.end_index (tokens_per_plate a)

theorem sem_right_forward (TI : TextInterp) (s : Solid) (A B : ℚ) (p : Pt) :
    p ∈ sem TI ((s.right A).forward B) ↔
      (p.1 - A, p.2.1 - B, p.2.2) ∈ sem TI s := by
  simp only [Solid.right, Solid.forward, sem, Set.mem_setOf_eq]
  have e : (p.1 - 0 - A, p.2.1 - B - 0, p.2.2 - 0 - 0) =
      (p.1 - A, p.2.1 - B, p.2.2) := by
    simp only [Prod.mk.injEq]
    exact ⟨by ring, by ring, by ring⟩
  rw [e]

theorem sem_right_forward_up (TI : TextInterp) (s : Solid) (A B C : ℚ)
    (p : Pt) :
    p ∈ sem TI (((s.right A).forward B).up C) ↔
      (p.1 - A, p.2.1 - B, p.2.2 - C) ∈ sem TI s := by
  simp only [Solid.right, Solid.forward, Solid.up, sem, Set.mem_setOf_eq]
  have e : (p.1 - 0 - 0 - A, p.2.1 - 0 - B - 0, p.2.2 - C - 0 - 0) =
      (p.1 - A, p.2.1 - B, p.2.2 - C) := by
    simp only [Prod.mk.injEq]
    exact ⟨by ring, by ring, by ring⟩
  rw [e]

theorem sem_left_forward (TI : TextInterp) (s : Solid) (A B : ℚ) (p : Pt) :
    p ∈ sem TI ((s.left A).forward B) ↔
      (p.1 + A, p.2.1 - B, p.2.2) ∈ sem TI s := by
  simp only [Solid.left, Solid.forward, sem, Set.mem_setOf_eq]
  have e : (p.1 - 0 - -A, p.2.1 - B - 0, p.2.2 - 0 - 0) =
      (p.1 + A, p.2.1 - B, p.2.2) := by
    simp only [Prod.mk.injEq]
    exact ⟨by ring, by ring, by ring⟩
  rw [e]

/-- The point set of a corner cylinder of radius `r`, height `d`, axis at
`(cx, cy)`. -/
def cornerCylSet (r d cx cy : ℚ) : Set Pt :=
  {p | (p.1 - cx) ^ 2 + (p.2.1 - cy) ^ 2 ≤ r ^ 2 ∧ 0 ≤ p.2.2 ∧ p.2.2 ≤ d}

theorem sem_corner (TI : TextInterp) (r d cx cy : ℚ) :
    sem TI (((Solid.cylinder r d).right cx).forward cy) =
      cornerCylSet r d cx cy := by
  ext p
  rw [sem_right_forward]
  simp only [sem, cornerCylSet, Set.mem_setOf_eq]

theorem sem_main_core (TI : TextInterp) (w h d r : ℚ) :
    sem TI (main_core w h d r) =
      {p : Pt | r ≤ p.1 ∧ p.1 ≤ w - r ∧ r ≤ p.2.1 ∧ p.2.1 ≤ h - r ∧
        0 ≤ p.2.2 ∧ p.2.2 ≤ d} := by
  ext p
  rw [main_core, sem_right_forward]
  simp only [sem, Set.mem_setOf_eq]
  constructor
  · rintro ⟨h1, h2, h3, h4, h5, h6⟩
    exact ⟨by linarith, by linarith, by linarith, by linarith, h5, h6⟩
  · rintro ⟨h1, h2, h3, h4, h5, h6⟩
    exact ⟨by linarith, by linarith, by linarith, by linarith, h5, h6⟩

theorem keychain_rounded_eq (w h d r : ℚ) :
    keychain_rounded w h d r =
      main_core w h d r +
        Solid.hull2 (((Solid.cylinder r d).right r).forward r)
          (((Solid.cylinder r d).right (w - r)).forward r) +
        Solid.hull2 (((Solid.cylinder r d).right (w - r)).forward r)
          (((Solid.cylinder r d).right (w - r)).forward (h - r)) +
        Solid.hull2 (((Solid.cylinder r d).right (w - r)).forward (h - r))
          (((Solid.cylinder r d).right r).forward (h - r)) +
        Solid.hull2 (((Solid.cylinder r d).right r).forward (h - r))
          (((Solid.cylinder r d).right r).forward r) := rfl

theorem sem_hull2 (TI : TextInterp) (s t : Solid) :
    sem TI (Solid.hull2 s t) = convexHull ℚ (sem TI s ∪ sem TI t) := rfl

theorem sem_keychain_rounded (TI : TextInterp) (w h d r : ℚ) :
    sem TI (keychain_rounded w h d r) =
      sem TI (main_core w h d r) ∪
        convexHull ℚ (cornerCylSet r d r r ∪ cornerCylSet r d (w - r) r) ∪
        convexHull ℚ
          (cornerCylSet r d (w - r) r ∪ cornerCylSet r d (w - r) (h - r)) ∪
        convexHull ℚ
          (cornerCylSet r d (w - r) (h - r) ∪ cornerCylSet r d r (h - r)) ∪
        convexHull ℚ
          (cornerCylSet r d r (h - r) ∪ cornerCylSet r d r r) := by
  rw [keychain_rounded_eq]
  simp only [sem_union, sem_hull2, sem_corner]

theorem sem_keychain_hole (TI : TextInterp) (w h d hr ho : ℚ) :
    sem TI (keychain_hole w h d hr ho) =
      {p : Pt | (p.1 - (w - ho - hr)) ^ 2 +
          (p.2.1 - (h - ho - 2 * hr + 1)) ^ 2 ≤ hr ^ 2 ∧
        0 ≤ p.2.2 ∧ p.2.2 ≤ d + 2} := by
  ext p
  simp only [keychain_hole, Solid.back, Solid.right, Solid.forward, sem,
    Set.mem_setOf_eq, neg_neg]
  constructor
  · rintro ⟨h1, h2, h3⟩
    refine ⟨?_, by linarith, by linarith⟩
    have e1 : p.1 - 0 - 0 - (w - ho - hr) = p.1 - (w - ho - hr) := by ring
    have e2 : p.2.1 - 1 - (h - ho - hr * 2) - 0 =
        p.2.1 - (h - ho - 2 * hr + 1) := by ring
    rw [e1, e2] at h1
    exact h1
  · rintro ⟨h1, h2, h3⟩
    refine ⟨?_, by linarith, by linarith⟩
    have e1 : p.1 - 0 - 0 - (w - ho - hr) = p.1 - (w - ho - hr) := by ring
    have e2 : p.2.1 - 1 - (h - ho - hr * 2) - 0 =
        p.2.1 - (h - ho - 2 * hr + 1) := by ring
    rw [e1, e2]
    exact h1

theorem interval_of_sq_le (a r : ℚ) (hr : 0 ≤ r) (h : a ^ 2 ≤ r ^ 2) :
    -r ≤ a ∧ a ≤ r := by
  constructor
  · by_contra hcon
    push_neg at hcon
    nlinarith [mul_pos (by linarith : (0 : ℚ) < -a - r)
      (by linarith : (0 : ℚ) < -a + r)]
  · by_contra hcon
    push_neg at hcon
    nlinarith [mul_pos (by linarith : (0 : ℚ) < a - r)
      (by linarith : (0 : ℚ) < a + r)]

theorem convex_combo_bounds (lo hi x y a b : ℚ) (hx1 : lo ≤ x) (hx2 : x ≤ hi)
    (hy1 : lo ≤ y) (hy2 : y ≤ hi) (ha : 0 ≤ a) (hb : 0 ≤ b)
    (hab : a + b = 1) : lo ≤ a * x + b * y ∧ a * x + b * y ≤ hi := by
  have h1 : a * lo ≤ a * x := mul_le_mul_of_nonneg_left hx1 ha
  have h2 : b * lo ≤ b * y := mul_le_mul_of_nonneg_left hy1 hb
  have h3 : a * x ≤ a * hi := mul_le_mul_of_nonneg_left hx2 ha
  have h4 : b * y ≤ b * hi := mul_le_mul_of_nonneg_left hy2 hb
  have hlo : a * lo + b * lo = lo := by rw [← add_mul, hab, one_mul]
  have hhi : a * hi + b * hi = hi := by rw [← add_mul, hab, one_mul]
  exact ⟨by linarith, by linarith⟩

/-- The closed axis-aligned box `[0,w] × [0,h] × [0,d]`. -/
def boxSet (w h d : ℚ) : Set Pt :=
  {p | 0 ≤ p.1 ∧ p.1 ≤ w ∧ 0 ≤ p.2.1 ∧ p.2.1 ≤ h ∧ 0 ≤ p.2.2 ∧ p.2.2 ≤ d}

theorem convex_boxSet (w h d : ℚ) : Convex ℚ (boxSet w h d) := by
  intro x hx y hy a b ha hb hab
  obtain ⟨hx1, hx2, hx3, hx4, hx5, hx6⟩ := hx
  obtain ⟨hy1, hy2, hy3, hy4, hy5, hy6⟩ := hy
  have e1 := convex_combo_bounds 0 w x.1 y.1 a b hx1 hx2 hy1 hy2 ha hb hab
  have e2 := convex_combo_bounds 0 h x.2.1 y.2.1 a b hx3 hx4 hy3 hy4 ha hb hab
  have e3 := convex_combo_bounds 0 d x.2.2 y.2.2 a b hx5 hx6 hy5 hy6 ha hb hab
  refine ⟨?_, ?_, ?_, ?_, ?_, ?_⟩ <;>
    simp only [Prod.fst_add, Prod.snd_add, Prod.smul_fst, Prod.smul_snd,
      smul_eq_mul]
  · exact e1.1
  · exact e1.2
  · exact e2.1
  · exact e2.2
  · exact e3.1
  · exact e3.2

theorem cornerCylSet_subset_boxSet (r d w h cx cy : ℚ) (hr : 0 ≤ r)
    (h1 : r ≤ cx) (h2 : cx + r ≤ w) (h3 : r ≤ cy) (h4 : cy + r ≤ h) :
    cornerCylSet r d cx cy ⊆ boxSet w h d := by
  rintro p ⟨hc, hz1, hz2⟩
  have hx2 : (p.1 - cx) ^ 2 ≤ r ^ 2 := by nlinarith [sq_nonneg (p.2.1 - cy)]
  have hy2 : (p.2.1 - cy) ^ 2 ≤ r ^ 2 := by nlinarith [sq_nonneg (p.1 - cx)]
  obtain ⟨ha1, ha2⟩ := interval_of_sq_le _ _ hr hx2
  obtain ⟨hb1, hb2⟩ := interval_of_sq_le _ _ hr hy2
  exact ⟨by linarith, by linarith, by linarith, by linarith, hz1, hz2⟩

/-- Claim C9: for valid rounded-body parameters the constructed rounded
body (before the hole subtraction) is exactly the union of the core inset
prism with the four convex hulls of cyclically adjacent corner cylinders,
its bounding box is `(width, height, depth)` (it lies in the box and
attains all six faces), and it strictly contains the core inset prism. -/
theorem claim_C9 (TI : TextInterp) (w h d r : ℚ) (hw : 0 < w) (hh : 0 < h)
    (hd : 0 < d) (hr : 0 < r) (hrw : 2 * r < w) (hrh : 2 * r < h) :
    sem TI (keychain_rounded w h d r) =
      {p : Pt | r ≤ p.1 ∧ p.1 ≤ w - r ∧ r ≤ p.2.1 ∧ p.2.1 ≤ h - r ∧
          0 ≤ p.2.2 ∧ p.2.2 ≤ d} ∪
        convexHull ℚ (cornerCylSet r d r r ∪ cornerCylSet r d (w - r) r) ∪
        convexHull ℚ
          (cornerCylSet r d (w - r) r ∪ cornerCylSet r d (w - r) (h - r)) ∪
        convexHull ℚ
          (cornerCylSet r d (w - r) (h - r) ∪ cornerCylSet r d r (h - r)) ∪
        convexHull ℚ (cornerCylSet r d r (h - r) ∪ cornerCylSet r d r r) ∧
      sem TI (keychain_rounded w h d r) ⊆ boxSet w h d ∧
      (((0 : ℚ), r, (0 : ℚ)) ∈ sem TI (keychain_rounded w h d r)) ∧
      ((w, r, (0 : ℚ)) ∈ sem TI (keychain_rounded w h d r)) ∧
      ((r, (0 : ℚ), (0 : ℚ)) ∈ sem TI (keychain_rounded w h d r)) ∧
      ((r, h, (0 : ℚ)) ∈ sem TI (keychain_rounded w h d r)) ∧
      ((r, (0 : ℚ), d) ∈ sem TI (keychain_rounded w h d r)) ∧
      {p : Pt | r ≤ p.1 ∧ p.1 ≤ w - r ∧ r ≤ p.2.1 ∧ p.2.1 ≤ h - r ∧
          0 ≤ p.2.2 ∧ p.2.2 ≤ d} ⊆ sem TI (keychain_rounded w h d r) ∧
      (((0 : ℚ), r, (0 : ℚ)) ∉
        {p : Pt | r ≤ p.1 ∧ p.1 ≤ w - r ∧ r ≤ p.2.1 ∧ p.2.1 ≤ h - r ∧
          0 ≤ p.2.2 ∧ p.2.2 ≤ d}) := by
  have hsem := sem_keychain_rounded TI w h d r
  have hcore := sem_main_core TI w h d r
  have s00 : cornerCylSet r d r r ⊆ boxSet w h d :=
    cornerCylSet_subset_boxSet r d w h r r (le_of_lt hr) (le_refl r)
      (by linarith) (le_refl r) (by linarith)
  have s10 : cornerCylSet r d (w - r) r ⊆ boxSet w h d :=
    cornerCylSet_subset_boxSet r d w h (w - r) r (le_of_lt hr) (by linarith)
      (by linarith) (le_refl r) (by linarith)
  have s11 : cornerCylSet r d (w - r) (h - r) ⊆ boxSet w h d :=
    cornerCylSet_subset_boxSet r d w h (w - r) (h - r) (le_of_lt hr)
      (by linarith) (by linarith) (by linarith) (by linarith)
  have s01 : cornerCylSet r d r (h - r) ⊆ boxSet w h d :=
    cornerCylSet_subset_boxSet r d w h r (h - r) (le_of_lt hr) (le_refl r)
      (by linarith) (by linarith) (by linarith)
  have hbox : sem TI (keychain_rounded w h d r) ⊆ boxSet w h d := by
    rw [hsem, hcore]
    refine Set.union_subset (Set.union_subset (Set.union_subset
      (Set.union_subset ?_ ?_) ?_) ?_) ?_
    · rintro p ⟨h1, h2, h3, h4, h5, h6⟩
      exact ⟨by linarith, by linarith, by linarith, by linarith, h5, h6⟩
    · exact convexHull_min (Set.union_subset s00 s10) (convex_boxSet w h d)
    · exact convexHull_min (Set.union_subset s10 s11) (convex_boxSet w h d)
    · exact convexHull_min (Set.union_subset s11 s01) (convex_boxSet w h d)
    · exact convexHull_min (Set.union_subset s01 s00) (convex_boxSet w h d)
  have m00 : ((0 : ℚ), r, (0 : ℚ)) ∈ cornerCylSet r d r r := by
    refine ⟨?_, le_refl 0, le_of_lt hd⟩
    show ((0 : ℚ) - r) ^ 2 + (r - r) ^ 2 ≤ r ^ 2
    nlinarith
  have m10 : (w, r, (0 : ℚ)) ∈ cornerCylSet r d (w - r) r := by
    refine ⟨?_, le_refl 0, le_of_lt hd⟩
    show (w - (w - r)) ^ 2 + (r - r) ^ 2 ≤ r ^ 2
    nlinarith
  have my0 : (r, (0 : ℚ), (0 : ℚ)) ∈ cornerCylSet r d r r := by
    refine ⟨?_, le_refl 0, le_of_lt hd⟩
    show (r - r) ^ 2 + ((0 : ℚ) - r) ^ 2 ≤ r ^ 2
    nlinarith
  have myh : (r, h, (0 : ℚ)) ∈ cornerCylSet r d r (h - r) := by
    refine ⟨?_, le_refl 0, le_of_lt hd⟩
    show (r - r) ^ 2 + (h - (h - r)) ^ 2 ≤ r ^ 2
    nlinarith
  have mzd : (r, (0 : ℚ), d) ∈ cornerCylSet r d r r := by
    refine ⟨?_, le_of_lt hd, le_refl d⟩
    show (r - r) ^ 2 + ((0 : ℚ) - r) ^ 2 ≤ r ^ 2
    nlinarith
  refine ⟨by rw [hsem, hcore], hbox, ?_, ?_, ?_, ?_, ?_, ?_, ?_⟩
  · rw [hsem]
    exact Set.mem_union_left _ (Set.mem_union_left _ (Set.mem_union_left _
      (Set.mem_union_right _
        (subset_convexHull ℚ _ (Set.mem_union_left _ m00)))))
  · rw [hsem]
    exact Set.mem_union_left _ (Set.mem_union_left _ (Set.mem_union_left _
      (Set.mem_union_right _
        (subset_convexHull ℚ _ (Set.mem_union_right _ m10)))))
  · rw [hsem]
    exact Set.mem_union_left _ (Set.mem_union_left _ (Set.mem_union_left _
      (Set.mem_union_right _
        (subset_convexHull ℚ _ (Set.mem_union_left _ my0)))))
  · rw [hsem]
    exact Set.mem_union_right _
      (subset_convexHull ℚ _ (Set.mem_union_left _ myh))
  · rw [hsem]
    exact Set.mem_union_left _ (Set.mem_union_left _ (Set.mem_union_left _
      (Set.mem_union_right _
        (subset_convexHull ℚ _ (Set.mem_union_left _ mzd)))))
  · rw [hsem, hcore]
    intro p hp
    exact Set.mem_union_left _ (Set.mem_union_left _ (Set.mem_union_left _
      (Set.mem_union_left _ hp)))
  · rintro ⟨h1, _⟩
    exact absurd h1 (not_le.mpr hr)

/-- Witness for claim C9 at the source's default parameters
`(50, 60, 3, 4)`. -/
theorem claim_C9_witness :
    ((0 : ℚ) < 50 ∧ (0 : ℚ) < 60 ∧ (0 : ℚ) < 3 ∧ (0 : ℚ) < 4 ∧
      2 * (4 : ℚ) < 50 ∧ 2 * (4 : ℚ) < 60) ∧
    (((0 : ℚ), (4 : ℚ), (0 : ℚ)) ∈ sem TI0 (keychain_rounded 50 60 3 4)) :=
  ⟨⟨by norm_num, by norm_num, by norm_num, by norm_num, by norm_num,
      by norm_num⟩,
    (claim_C9 TI0 50 60 3 4 (by norm_num) (by norm_num) (by norm_num)
      (by norm_num) (by norm_num) (by norm_num)).2.2.1⟩

/-- Claim C4 (code bug): at the exact claimed boundary
`hole_radius + hole_offset = min(width,height)/2` (here `3 + 22 = 25`),
`create_keychain_body` performs no validation and returns an ordinary
solid — the point `(25, 20, 1)` lies in the produced body — instead of
signaling any error. -/
theorem claim_C4_boundary_returns_solid :
    (3 : ℚ) + 22 = min 50 60 / 2 ∧
    ((25 : ℚ), (20 : ℚ), (1 : ℚ)) ∈
      sem TI0 (create_keychain_body 50 60 3 4 3 22) := by
  refine ⟨by norm_num, ?_⟩
  show ((25 : ℚ), (20 : ℚ), (1 : ℚ)) ∈
    sem TI0 (keychain_rounded 50 60 3 4) \ sem TI0 (keychain_hole 50 60 3 3 22)
  constructor
  · rw [sem_keychain_rounded, sem_main_core]
    refine Set.mem_union_left _ (Set.mem_union_left _ (Set.mem_union_left _
      (Set.mem_union_left _ ?_)))
    refine ⟨by norm_num, by norm_num, by norm_num, by norm_num, by norm_num,
      by norm_num⟩
  · rw [sem_keychain_hole]
    rintro ⟨hc, -, -⟩
    norm_num at hc

/-- Counterexample to claim C5 at the default parameters
`(width, height, depth, hole_radius, hole_offset) = (50, 60, 3, 3, 3)`:
the subtracted hole cylinder is exactly the cylinder of radius 3 with axis
`(44, 52)` and `z ∈ [0, 5]`.  Hence no point of it lies below the base
plane `z = 0` (the point `(44, 52, -1/2)` on its axis slightly below the
plane is not in it), and the axis distances to the two adjacent edges,
`50 - 44 = 6` from the right edge and `60 - 52 = 8` from the top edge, are
not the same offset on both axes. -/
theorem claim_C5_counterexample :
    sem TI0 (keychain_hole 50 60 3 3 3) =
      {p : Pt | (p.1 - 44) ^ 2 + (p.2.1 - 52) ^ 2 ≤ 9 ∧
        0 ≤ p.2.2 ∧ p.2.2 ≤ 5} ∧
    (((44 : ℚ), (52 : ℚ), (-1/2 : ℚ)) ∉ sem TI0 (keychain_hole 50 60 3 3 3)) ∧
    ((50 : ℚ) - 44 ≠ 60 - 52) := by
  have hsem := sem_keychain_hole TI0 50 60 3 3 3
  refine ⟨?_, ?_, by norm_num⟩
  · rw [hsem]
    ext p
    norm_num
  · rw [hsem]
    rintro ⟨-, hz, -⟩
    norm_num at hz

/-- Claim C5 (amended): the subtracted hole cylinder has radius
`hole_radius` and height exactly `depth + 2`; its axis is at
`x = width - hole_offset - hole_radius` and
`y = height - hole_offset - 2*hole_radius + 1` (the final `.back(-1)`
shifts it `+1` along y, not below the base plane), and it spans exactly
`z ∈ [0, depth + 2]`, its bottom coplanar with the body's base plane. -/
theorem claim_C5 (TI : TextInterp) (w h d r hr ho : ℚ) :
    create_keychain_body w h d r hr ho =
      Solid.color "white"
        (keychain_rounded w h d r - keychain_hole w h d hr ho) ∧
    sem TI (keychain_hole w h d hr ho) =
      {p : Pt | (p.1 - (w - ho - hr)) ^ 2 +
          (p.2.1 - (h - ho - 2 * hr + 1)) ^ 2 ≤ hr ^ 2 ∧
        0 ≤ p.2.2 ∧ p.2.2 ≤ d + 2} :=
  ⟨rfl, sem_keychain_hole TI w h d hr ho⟩

theorem sem_mirrorX_back_colored (TI : TextInterp) (qr txt : Solid)
    (a : Args) (toff : ℚ) :
    sem TI (Solid.mirrorX (back_colored qr txt a toff)) =
      sem TI (back_pre_mirror qr txt a toff) := by
  ext p
  simp only [back_colored, back_pre_mirror, sem_union, sem, Set.mem_union,
    Set.mem_setOf_eq, neg_neg]

theorem sem_back_qr_component (TI : TextInterp) (qr : Solid) (a : Args) :
    sem TI ((qr.left (a.token_width - a.qr_border)).forward a.qr_border) =
      sem TI (Solid.translate (-a.token_width) 0
        (-(a.token_depth - a.colored_print_depth))
        (front_qr_component qr a)) := by
  ext p
  rw [sem_left_forward, mem_sem_translate, front_qr_component,
    sem_right_forward_up]
  have e : ((p.1 - -a.token_width) - a.qr_border,
      (p.2.1 - 0) - a.qr_border,
      (p.2.2 - -(a.token_depth - a.colored_print_depth)) -
        (a.token_depth - a.colored_print_depth)) =
      (p.1 + (a.token_width - a.qr_border), p.2.1 - a.qr_border, p.2.2) := by
    simp only [Prod.mk.injEq]
    exact ⟨by ring, by ring, by ring⟩
  rw [e]

theorem sem_back_text_component (TI : TextInterp) (txt : Solid) (a : Args)
    (toff : ℚ) :
    sem TI ((txt.left toff).forward (a.token_height - a.text_border)) =
      sem TI (Solid.translate (-(2 * toff)) 0
        (-(a.token_depth - a.colored_print_depth))
        (front_text_component txt a toff)) := by
  ext p
  rw [sem_left_forward, mem_sem_translate, front_text_component,
    sem_right_forward_up]
  have e : ((p.1 - -(2 * toff)) - toff,
      (p.2.1 - 0) - (a.token_height - a.text_border),
      (p.2.2 - -(a.token_depth - a.colored_print_depth)) -
        (a.token_depth - a.colored_print_depth)) =
      (p.1 + toff, p.2.1 - (a.token_height - a.text_border), p.2.2) := by
    simp only [Prod.mk.injEq]
    exact ⟨by ring, by ring, by ring⟩
  rw [e]

/-- Claim C7 (amended): the X mirror used in overlay assembly is a
semantic involution, and un-mirroring the back overlay yields the union of
the front overlay's two source components, the qr component translated by
`(-token_width, 0, -(token_depth - colored_print_depth))` and the text
component translated by
`(-2*text_offset, 0, -(token_depth - colored_print_depth))` — each
component is a pure translation of the corresponding front component, but
by different vectors. -/
theorem claim_C7 (TI : TextInterp) (qr txt : Solid) (a : Args) (toff : ℚ) :
    (∀ s : Solid, sem TI (Solid.mirrorX (Solid.mirrorX s)) = sem TI s) ∧
    assemble_colored_components qr txt a toff =
      front_colored qr txt a toff + back_colored qr txt a toff ∧
    sem TI (Solid.mirrorX (back_colored qr txt a toff)) =
      sem TI (back_pre_mirror qr txt a toff) ∧
    sem TI (back_pre_mirror qr txt a toff) =
      sem TI (Solid.translate (-a.token_width) 0
          (-(a.token_depth - a.colored_print_depth))
          (front_qr_component qr a)) ∪
        sem TI (Solid.translate (-(2 * toff)) 0
          (-(a.token_depth - a.colored_print_depth))
          (front_text_component txt a toff)) := by
  refine ⟨sem_mirrorX_mirrorX TI, rfl, sem_mirrorX_back_colored TI qr txt a toff, ?_⟩
  show sem TI ((qr.left (a.token_width - a.qr_border)).forward a.qr_border) ∪
      sem TI ((txt.left toff).forward (a.token_height - a.text_border)) = _
  rw [sem_back_qr_component, sem_back_text_component]

/-- Counterexample to claim C7 with unit-cube reliefs and the default
configuration: no single translation maps the front overlay onto the
un-mirrored back overlay, because the qr component is shifted by
`-token_width = -50` along x while the text component is shifted by
`-2*text_offset = -44`. -/
theorem claim_C7_counterexample :
    ¬ ∃ t : Pt,
      sem TI0 (Solid.mirrorX (back_colored (Solid.cube 1 1 1)
          (Solid.cube 1 1 1) defaultArgs (text_offset_main defaultArgs))) =
        {p : Pt | (p.1 - t.1, p.2.1 - t.2.1, p.2.2 - t.2.2) ∈
          sem TI0 (front_colored (Solid.cube 1 1 1) (Solid.cube 1 1 1)
            defaultArgs (text_offset_main defaultArgs))} := by
  rintro ⟨t, heq⟩
  rw [sem_mirrorX_back_colored] at heq
  have ha : ((-47 : ℚ), (3 : ℚ), (0 : ℚ)) ∈
      sem TI0 (back_pre_mirror (Solid.cube 1 1 1) (Solid.cube 1 1 1)
        defaultArgs (text_offset_main defaultArgs)) := by
    refine Set.mem_union_left _ ?_
    rw [sem_left_forward]
    simp only [sem, Set.mem_setOf_eq]
    norm_num [defaultArgs]
  have hb : ((-22 : ℚ), (57 : ℚ), (0 : ℚ)) ∈
      sem TI0 (back_pre_mirror (Solid.cube 1 1 1) (Solid.cube 1 1 1)
        defaultArgs (text_offset_main defaultArgs)) := by
    refine Set.mem_union_right _ ?_
    rw [sem_left_forward]
    simp only [sem, Set.mem_setOf_eq]
    norm_num [defaultArgs, text_offset_main]
  rw [heq] at ha hb
  simp only [Set.mem_setOf_eq, front_colored, sem_union, Set.mem_union] at ha hb
  rcases ha with ha | ha <;> rcases hb with hb | hb
  · rw [front_qr_component, sem_right_forward_up] at ha hb
    simp only [sem, Set.mem_setOf_eq] at ha hb
    norm_num [defaultArgs] at ha hb
    linarith [ha.1, hb.1]
  · rw [front_qr_component, sem_right_forward_up] at ha
    rw [front_text_component, sem_right_forward_up] at hb
    simp only [sem, Set.mem_setOf_eq] at ha hb
    norm_num [defaultArgs, text_offset_main] at ha hb
    linarith [ha.1, hb.1]
  · rw [front_text_component, sem_right_forward_up] at ha
    rw [front_qr_component, sem_right_forward_up] at hb
    simp only [sem, Set.mem_setOf_eq] at ha hb
    norm_num [defaultArgs, text_offset_main] at ha hb
    linarith [ha.1, hb.1]
  · rw [front_text_component, sem_right_forward_up] at ha hb
    simp only [sem, Set.mem_setOf_eq] at ha hb
    norm_num [defaultArgs, text_offset_main] at ha hb
    linarith [ha.1, hb.1]

/-- The prism emitted for a true cell `(y, x)` (row `y`, column `x`) with
cell size `ps` and depth `d`. -/
def qrPrismSet (ps d : ℚ) (y x : ℕ) : Set Pt :=
  {p | (x : ℚ) * ps ≤ p.1 ∧ p.1 ≤ (x : ℚ) * ps + ps ∧
    (y : ℚ) * ps ≤ p.2.1 ∧ p.2.1 ≤ (y : ℚ) * ps + ps ∧
    0 ≤ p.2.2 ∧ p.2.2 ≤ d}

/-- Value of the QR matrix at row `y`, column `x` (false out of range). -/
def cellAt (m : List (List Bool)) (y x : ℕ) : Bool :=
  (m.getD y []).getD x false

/-- The union of cell prisms over all true cells of the matrix, at cell
size `qr_width / n`. -/
def qrReliefSet (m : List (List Bool)) (qr_width d : ℚ) : Set Pt :=
  {p | ∃ y x, cellAt m y x = true ∧
    p ∈ qrPrismSet (qr_width / (m.length : ℚ)) d y x}

theorem sem_qrCell (TI : TextInterp) (ps d : ℚ) (y x : ℕ) :
    sem TI (qrCell ps d y x) = qrPrismSet ps d y x := by
  ext p
  rw [qrCell, sem_right_forward]
  simp only [sem, qrPrismSet, Set.mem_setOf_eq]
  constructor
  · rintro ⟨h1, h2, h3, h4, h5, h6⟩
    exact ⟨by linarith, by linarith, by linarith, by linarith, h5, h6⟩
  · rintro ⟨h1, h2, h3, h4, h5, h6⟩
    exact ⟨by linarith, by linarith, by linarith, by linarith, h5, h6⟩

theorem sem_cellFold (TI : TextInterp) (ps d : ℚ) (y : ℕ)
    (l : List (ℕ × Bool)) (acc : Solid) :
    sem TI (l.foldl (qrCellStep ps d y) acc) =
      sem TI acc ∪ {p | ∃ x, (x, true) ∈ l ∧ p ∈ qrPrismSet ps d y x} := by
  induction l generalizing acc with
  | nil => simp
  | cons xc l ih =>
    rcases xc with ⟨x0, b⟩
    rw [List.foldl_cons, ih]
    cases b with
    | false =>
      rw [show qrCellStep ps d y acc (x0, false) = acc from rfl]
      ext p
      simp only [Set.mem_union, Set.mem_setOf_eq, List.mem_cons,
        Prod.mk.injEq]
      constructor
      · rintro (hacc | ⟨x, hx, hp⟩)
        · exact Or.inl hacc
        · exact Or.inr ⟨x, Or.inr hx, hp⟩
      · rintro (hacc | ⟨x, ⟨hx1, hx2⟩ | hx, hp⟩)
        · exact Or.inl hacc
        · exact absurd hx2 (by simp)
        · exact Or.inr ⟨x, hx, hp⟩
    | true =>
      rw [show qrCellStep ps d y acc (x0, true) = acc + qrCell ps d y x0
        from rfl, sem_union, sem_qrCell]
      ext p
      simp only [Set.mem_union, Set.mem_setOf_eq, List.mem_cons,
        Prod.mk.injEq]
      constructor
      · rintro ((hacc | hcell) | ⟨x, hx, hp⟩)
        · exact Or.inl hacc
        · exact Or.inr ⟨x0, Or.inl ⟨rfl, trivial⟩, hcell⟩
        · exact Or.inr ⟨x, Or.inr hx, hp⟩
      · rintro (hacc | ⟨x, ⟨hx1, hx2⟩ | hx, hp⟩)
        · exact Or.inl (Or.inl hacc)
        · subst hx1
          exact Or.inl (Or.inr hp)
        · exact Or.inr ⟨x, hx, hp⟩

theorem sem_rowFold (TI : TextInterp) (ps d : ℚ)
    (L : List (ℕ × List Bool)) (acc : Solid) :
    sem TI (L.foldl (qrRowStep ps d) acc) =
      sem TI acc ∪ {p | ∃ y x row, (y, row) ∈ L ∧ (x, true) ∈ row.enum ∧
        p ∈ qrPrismSet ps d y x} := by
  induction L generalizing acc with
  | nil => simp
  | cons yr L ih =>
    rcases yr with ⟨y0, row0⟩
    rw [List.foldl_cons, ih]
    rw [show qrRowStep ps d acc (y0, row0) =
      row0.enum.foldl (qrCellStep ps d y0) acc from rfl]
    rw [sem_cellFold]
    ext p
    simp only [Set.mem_union, Set.mem_setOf_eq, List.mem_cons, Prod.mk.injEq]
    constructor
    · rintro ((hacc | ⟨x, hx, hp⟩) | ⟨y, x, row, hmem, hxr, hp⟩)
      · exact Or.inl hacc
      · exact Or.inr ⟨y0, x, row0, Or.inl ⟨rfl, rfl⟩, hx, hp⟩
      · exact Or.inr ⟨y, x, row, Or.inr hmem, hxr, hp⟩
    · rintro (hacc | ⟨y, x, row, ⟨hy, hrow⟩ | hmem, hxr, hp⟩)
      · exact Or.inl (Or.inl hacc)
      · subst hy
        subst hrow
        exact Or.inl (Or.inr ⟨x, hxr, hp⟩)
      · exact Or.inr ⟨y, x, row, hmem, hxr, hp⟩

theorem cellAt_iff (m : List (List Bool)) (y x : ℕ) :
    cellAt m y x = true ↔
      ∃ row, (y, row) ∈ m.enum ∧ (x, true) ∈ row.enum := by
  unfold cellAt
  simp only [List.getD_eq_getElem?_getD, List.mk_mem_enum_iff_getElem?]
  constructor
  · intro hc
    cases hy : m[y]? with
    | none =>
      rw [hy] at hc
      simp at hc
    | some row =>
      rw [hy] at hc
      simp only [Option.getD_some] at hc
      refine ⟨row, rfl, ?_⟩
      cases hx : row[x]? with
      | none =>
        rw [hx] at hc
        simp at hc
      | some b =>
        rw [hx] at hc
        simp only [Option.getD_some] at hc
        rw [hc]
  · rintro ⟨row, hy, hx⟩
    rw [hy, Option.getD_some, hx, Option.getD_some]

theorem sem_qr_code_to_3d_model (TI : TextInterp) (m : List (List Bool))
    (qw d : ℚ) :
    sem TI (qr_code_to_3d_model m qw d) = qrReliefSet m qw d := by
  show sem TI
    (m.enum.foldl (qrRowStep (qw / (m.length : ℚ)) d) Solid.empty) = _
  rw [sem_rowFold]
  ext p
  simp only [Set.mem_union, Set.mem_setOf_eq, qrReliefSet,
    show sem TI Solid.empty = ∅ from rfl, Set.mem_empty_iff_false, false_or]
  constructor
  · rintro ⟨y, x, row, hmem, hxr, hp⟩
    exact ⟨y, x, (cellAt_iff m y x).2 ⟨row, hmem, hxr⟩, hp⟩
  · rintro ⟨y, x, hc, hp⟩
    obtain ⟨row, hmem, hxr⟩ := (cellAt_iff m y x).1 hc
    exact ⟨y, x, row, hmem, hxr, hp⟩

theorem cellAt_lt (m : List (List Bool)) (y x : ℕ)
    (hsq : ∀ row ∈ m, row.length = m.length) (hc : cellAt m y x = true) :
    y < m.length ∧ x < m.length := by
  obtain ⟨row, hy, hx⟩ := (cellAt_iff m y x).1 hc
  rw [List.mk_mem_enum_iff_getElem?] at hy hx
  obtain ⟨hylt, hrow⟩ := List.getElem?_eq_some_iff.1 hy
  obtain ⟨hxlt, -⟩ := List.getElem?_eq_some_iff.1 hx
  have hmem : row ∈ m := by
    rw [← hrow]
    exact List.getElem_mem hylt
  rw [hsq row hmem] at hxlt
  exact ⟨hylt, hxlt⟩

theorem mem_qrRelief_of_cell (TI : TextInterp) (m : List (List Bool))
    (tw d : ℚ) (y x : ℕ) (hc : cellAt m y x = true) (p : Pt)
    (hp : p ∈ qrPrismSet (tw / (m.length : ℚ)) d y x) :
    p ∈ sem TI (qr_code_to_3d_model m tw d) := by
  rw [sem_qr_code_to_3d_model]
  exact ⟨y, x, hc, hp⟩

theorem qrPrism_corner_mem (ps d : ℚ) (hps : 0 ≤ ps) (hd : 0 ≤ d)
    (y x : ℕ) :
    (((x : ℚ) * ps, (y : ℚ) * ps, (0 : ℚ)) ∈ qrPrismSet ps d y x) ∧
    (((x : ℚ) * ps + ps, (y : ℚ) * ps + ps, (0 : ℚ)) ∈
      qrPrismSet ps d y x) ∧
    (((x : ℚ) * ps, (y : ℚ) * ps, d) ∈ qrPrismSet ps d y x) :=
  by
  have hxx : (x : ℚ) * ps ≤ (x : ℚ) * ps + ps := by linarith
  have hyy : (y : ℚ) * ps ≤ (y : ℚ) * ps + ps := by linarith
  exact ⟨⟨le_refl _, hxx, le_refl _, hyy, le_refl _, hd⟩,
    ⟨hxx, le_refl _, hyy, le_refl _, le_refl _, hd⟩,
    ⟨le_refl _, hxx, le_refl _, hyy, hd, le_refl _⟩⟩

/-- Claim C6: the QR relief is exactly the union over true cells
`(row, col)` of `cell_size × cell_size × depth` prisms at
`(col*cell_size, row*cell_size, 0)` with `cell_size = target_width / n`;
its bounding box is `(target_width, target_width, depth)` whenever the
extreme rows and columns hold true cells; and it is empty iff the matrix
has no true cells. -/
theorem claim_C6 (TI : TextInterp) (m : List (List Bool)) (tw d : ℚ)
    (hn : 1 ≤ m.length) (hsq : ∀ row ∈ m, row.length = m.length)
    (htw : 0 < tw) (hd : 0 < d) :
    sem TI (qr_code_to_3d_model m tw d) = qrReliefSet m tw d ∧
    sem TI (qr_code_to_3d_model m tw d) ⊆ boxSet tw tw d ∧
    ((∃ x, cellAt m 0 x = true) →
      ∃ p ∈ sem TI (qr_code_to_3d_model m tw d), p.2.1 = 0) ∧
    ((∃ x, cellAt m (m.length - 1) x = true) →
      ∃ p ∈ sem TI (qr_code_to_3d_model m tw d), p.2.1 = tw) ∧
    ((∃ y, cellAt m y 0 = true) →
      ∃ p ∈ sem TI (qr_code_to_3d_model m tw d), p.1 = 0) ∧
    ((∃ y, cellAt m y (m.length - 1) = true) →
      ∃ p ∈ sem TI (qr_code_to_3d_model m tw d), p.1 = tw) ∧
    ((∃ y x, cellAt m y x = true) →
      (∃ p ∈ sem TI (qr_code_to_3d_model m tw d), p.2.2 = 0) ∧
      (∃ p ∈ sem TI (qr_code_to_3d_model m tw d), p.2.2 = d)) ∧
    (sem TI (qr_code_to_3d_model m tw d) = ∅ ↔
      ∀ y x, cellAt m y x = false) := by
  have hnpos : (0 : ℚ) < (m.length : ℚ) := by
    exact_mod_cast lt_of_lt_of_le Nat.zero_lt_one hn
  have hps : 0 < tw / (m.length : ℚ) := div_pos htw hnpos
  have hnps : (m.length : ℚ) * (tw / (m.length : ℚ)) = tw := by
    field_simp
  have hlast : ((m.length - 1 : ℕ) : ℚ) * (tw / (m.length : ℚ)) +
      tw / (m.length : ℚ) = tw := by
    rw [Nat.cast_sub hn]
    have : (((m.length : ℚ) - (1 : ℕ)) * (tw / (m.length : ℚ)) +
        tw / (m.length : ℚ)) = (m.length : ℚ) * (tw / (m.length : ℚ)) := by
      push_cast
      ring
    rw [this, hnps]
  refine ⟨sem_qr_code_to_3d_model TI m tw d, ?_, ?_, ?_, ?_, ?_, ?_, ?_⟩
  · rw [sem_qr_code_to_3d_model]
    rintro p ⟨y, x, hc, hp⟩
    obtain ⟨hylt, hxlt⟩ := cellAt_lt m y x hsq hc
    obtain ⟨h1, h2, h3, h4, h5, h6⟩ := hp
    have hx1 : ((x : ℚ) + 1) ≤ (m.length : ℚ) := by
      exact_mod_cast Nat.succ_le_of_lt hxlt
    have hy1 : ((y : ℚ) + 1) ≤ (m.length : ℚ) := by
      exact_mod_cast Nat.succ_le_of_lt hylt
    have hxm : ((x : ℚ) + 1) * (tw / (m.length : ℚ)) ≤
        (m.length : ℚ) * (tw / (m.length : ℚ)) :=
      mul_le_mul_of_nonneg_right hx1 (le_of_lt hps)
    have hym : ((y : ℚ) + 1) * (tw / (m.length : ℚ)) ≤
        (m.length : ℚ) * (tw / (m.length : ℚ)) :=
      mul_le_mul_of_nonneg_right hy1 (le_of_lt hps)
    rw [hnps] at hxm hym
    have hx0 : 0 ≤ (x : ℚ) * (tw / (m.length : ℚ)) :=
      mul_nonneg (Nat.cast_nonneg x) (le_of_lt hps)
    have hy0 : 0 ≤ (y : ℚ) * (tw / (m.length : ℚ)) :=
      mul_nonneg (Nat.cast_nonneg y) (le_of_lt hps)
    refine ⟨by linarith, by nlinarith, by linarith, by nlinarith, h5, h6⟩
  · rintro ⟨x, hc⟩
    obtain ⟨hbase, -, -⟩ :=
      qrPrism_corner_mem (tw / (m.length : ℚ)) d (le_of_lt hps)
        (le_of_lt hd) 0 x
    refine ⟨((x : ℚ) * (tw / (m.length : ℚ)), ((0 : ℕ) : ℚ) *
        (tw / (m.length : ℚ)), (0 : ℚ)),
      mem_qrRelief_of_cell TI m tw d 0 x hc _ hbase, by simp⟩
  · rintro ⟨x, hc⟩
    obtain ⟨-, hcorner, -⟩ :=
      qrPrism_corner_mem (tw / (m.length : ℚ)) d (le_of_lt hps)
        (le_of_lt hd) (m.length - 1) x
    refine ⟨_, mem_qrRelief_of_cell TI m tw d (m.length - 1) x hc _ hcorner,
      ?_⟩
    show ((m.length - 1 : ℕ) : ℚ) * (tw / (m.length : ℚ)) +
      tw / (m.length : ℚ) = tw
    exact hlast
  · rintro ⟨y, hc⟩
    obtain ⟨hbase, -, -⟩ :=
      qrPrism_corner_mem (tw / (m.length : ℚ)) d (le_of_lt hps)
        (le_of_lt hd) y 0
    refine ⟨_, mem_qrRelief_of_cell TI m tw d y 0 hc _ hbase, by simp⟩
  · rintro ⟨y, hc⟩
    obtain ⟨-, hcorner, -⟩ :=
      qrPrism_corner_mem (tw / (m.length : ℚ)) d (le_of_lt hps)
        (le_of_lt hd) y (m.length - 1)
    refine ⟨_, mem_qrRelief_of_cell TI m tw d y (m.length - 1) hc _ hcorner,
      ?_⟩
    show ((m.length - 1 : ℕ) : ℚ) * (tw / (m.length : ℚ)) +
      tw / (m.length : ℚ) = tw
    exact hlast
  · rintro ⟨y, x, hc⟩
    obtain ⟨hbase, -, htop⟩ :=
      qrPrism_corner_mem (tw / (m.length : ℚ)) d (le_of_lt hps)
        (le_of_lt hd) y x
    exact ⟨⟨_, mem_qrRelief_of_cell TI m tw d y x hc _ hbase, rfl⟩,
      ⟨_, mem_qrRelief_of_cell TI m tw d y x hc _ htop, rfl⟩⟩
  · constructor
    · intro hS y x
      cases hcc : cellAt m y x with
      | false => rfl
      | true =>
        obtain ⟨hbase, -, -⟩ :=
          qrPrism_corner_mem (tw / (m.length : ℚ)) d (le_of_lt hps)
            (le_of_lt hd) y x
        have := mem_qrRelief_of_cell TI m tw d y x hcc _ hbase
        rw [hS] at this
        exact absurd this (Set.not_mem_empty _)
    · intro hall
      rw [sem_qr_code_to_3d_model]
      ext p
      simp only [qrReliefSet, Set.mem_setOf_eq, Set.mem_empty_iff_false,
        iff_false]
      rintro ⟨y, x, hc, -⟩
      rw [hall y x] at hc
      exact absurd hc (by simp)

/-- Witness for claim C6 at the 1×1 matrix `[[true]]`, `target_width = 2`,
`depth = 1`. -/
theorem claim_C6_witness :
    ((1 ≤ ([[true]] : List (List Bool)).length) ∧
      (∀ row ∈ ([[true]] : List (List Bool)),
        row.length = ([[true]] : List (List Bool)).length) ∧
      (0 : ℚ) < 2 ∧ (0 : ℚ) < 1) ∧
    sem TI0 (qr_code_to_3d_model [[true]] 2 1) = qrReliefSet [[true]] 2 1 :=
  ⟨⟨by decide, by decide, by norm_num, by norm_num⟩,
    (claim_C6 TI0 [[true]] 2 1 (by decide) (by decide) (by norm_num)
      (by norm_num)).1⟩

/-- The tags at positions `lo, …, hi-1` (0-based from `start`), mapped
through the item function `tb`. -/
def tagSlice {α : Type} (tb : ℤ → α) (start : ℤ) (lo hi : ℕ) : List α :=
  (List.range (hi - lo)).map (fun j : ℕ => tb (start + (lo : ℤ) + (j : ℤ)))

/-- The closed form of the batch loop's exports for `N ≥ 1` tags and
capacity `c ≥ 1`: `(N-1)/c + 1` plates, numbered from 1, plate `k+1`
holding positions `k*c, …, min((k+1)*c, N) - 1`. -/
def expectedExports {α β : Type} (tb : ℤ → α) (tc : ℤ → β) (start : ℤ)
    (N c : ℕ) : List (PlateExport α β) :=
  (List.range ((N - 1) / c + 1)).map (fun k =>
    { plate := k + 1
      body := tagSlice tb start (k * c) (min ((k + 1) * c) N)
      colored := tagSlice tc start (k * c) (min ((k + 1) * c) N) })

theorem tagSlice_length {α : Type} (tb : ℤ → α) (start : ℤ) (lo hi : ℕ) :
    (tagSlice tb start lo hi).length = hi - lo := by
  simp [tagSlice]

theorem tagSlice_snoc {α : Type} (tb : ℤ → α) (start : ℤ) (lo hi : ℕ)
    (hle : lo ≤ hi) :
    tagSlice tb start lo hi ++ [tb (start + (hi : ℤ))] =
      tagSlice tb start lo (hi + 1) := by
  unfold tagSlice
  rw [show hi + 1 - lo = (hi - lo) + 1 from by omega, List.range_succ,
    List.map_append, List.map_cons, List.map_nil]
  have harg : start + (lo : ℤ) + ((hi - lo : ℕ) : ℤ) = start + (hi : ℤ) := by
    rw [Nat.cast_sub hle]
    ring
  rw [harg]

theorem tagSlice_one {α : Type} (tb : ℤ → α) (start : ℤ) (m : ℕ) :
    tagSlice tb start m (m + 1) = [tb (start + (m : ℤ))] := by
  unfold tagSlice
  rw [show m + 1 - m = 1 from by omega,
    show List.range 1 = [0] from rfl, List.map_cons, List.map_nil]
  simp

theorem fmod_cast_nat (start : ℤ) (k c : ℕ) :
    Int.fmod (start + (k : ℤ) - start) (c : ℤ) = ((k % c : ℕ) : ℤ) := by
  have h1 : start + (k : ℤ) - start = (k : ℤ) := by ring
  rw [h1, Int.fmod_eq_emod _ (Int.natCast_nonneg c)]
  exact (Int.ofNat_emod k c).symm

/-- One batch iteration at sequence position `k` (tag index `start + k`). -/
def natBatchStep {α β : Type} (tb : ℤ → α) (tc : ℤ → β) (start : ℤ)
    (c : ℕ) (st : BatchState α β) (k : ℕ) : BatchState α β :=
  batchStepPure tb tc start (c : ℤ) st (start + (k : ℤ))

theorem natBatch_invariant {α β : Type} (tb : ℤ → α) (tc : ℤ → β)
    (start : ℤ) (c : ℕ) (hc : 1 ≤ c) (m : ℕ) (hm : 1 ≤ m) :
    (List.range m).foldl (natBatchStep tb tc start c) batchInit =
      { plateIdx := (m - 1) / c + 1
        bodyAcc := tagSlice tb start (((m - 1) / c) * c) m
        coloredAcc := tagSlice tc start (((m - 1) / c) * c) m
        exports := (List.range ((m - 1) / c)).map (fun k =>
          { plate := k + 1
            body := tagSlice tb start (k * c) ((k + 1) * c)
            colored := tagSlice tc start (k * c) ((k + 1) * c) }) } := by
  induction m with
  | zero => exact absurd hm (by omega)
  | succ m ih =>
    by_cases hm0 : m = 0
    · subst hm0
      rw [show List.range 1 = [0] from rfl, List.foldl_cons, List.foldl_nil]
      unfold natBatchStep batchStepPure
      rw [fmod_cast_nat]
      rw [if_pos (show (((0 % c : ℕ) : ℤ) = 0) from by
        rw [Nat.zero_mod, Nat.cast_zero])]
      dsimp only [batchInit]
      rw [show (1 - 1) / c = 0 from by simp, Nat.zero_mul,
        show (1 : ℕ) = 0 + 1 from rfl, tagSlice_one tb start 0,
        tagSlice_one tc start 0]
      simp
    · have hm1 : 1 ≤ m := by omega
      rw [List.range_succ, List.foldl_append, List.foldl_cons,
        List.foldl_nil, ih hm1]
      simp only [Nat.add_sub_cancel]
      unfold natBatchStep batchStepPure
      rw [fmod_cast_nat]
      by_cases hdvd : m % c = 0
      · rw [if_pos (show (((m % c : ℕ) : ℤ) = 0) from by
          rw [hdvd, Nat.cast_zero])]
        have hdc : c ∣ m := Nat.dvd_of_mod_eq_zero hdvd
        have hcm : c ≤ m := Nat.le_of_dvd (by omega) hdc
        have hf2 : m / c * c = m := Nat.div_mul_cancel hdc
        have ht : 1 ≤ m / c := (Nat.one_le_div_iff (by omega)).mpr hcm
        have hf1 : (m - 1) / c = m / c - 1 := by
          have h1 : m - 1 = (c - 1) + (m / c - 1) * c := by
            have hsub : (m / c - 1) * c = m - c := by
              rw [Nat.sub_mul, hf2, one_mul]
            omega
          rw [h1, Nat.add_mul_div_right _ _ (by omega : 0 < c),
            Nat.div_eq_of_lt (by omega : c - 1 < c), Nat.zero_add]
        have hqt : (m - 1) / c + 1 = m / c := by
          rw [hf1]
          exact Nat.succ_pred_eq_of_pos ht
        have hmc : ((m - 1) / c + 1) * c = m := by
          rw [hqt, hf2]
        rw [show m / c = (m - 1) / c + 1 from hqt.symm]
        rw [if_pos (Nat.succ_pos ((m - 1) / c))]
        dsimp only
        rw [List.range_succ, List.map_append, List.map_cons, List.map_nil]
        rw [hmc]
        rw [tagSlice_one tb start m, tagSlice_one tc start m]
        rfl
      · rw [if_neg (show ¬(((m % c : ℕ) : ℤ) = 0) from
          fun hcast => hdvd (by exact_mod_cast hcast))]
        have hnd : ¬ c ∣ m := by
          rw [Nat.dvd_iff_mod_eq_zero]
          exact hdvd
        have hq : m / c = (m - 1) / c := by
          have h := Nat.succ_div (m - 1) c
          rw [show m - 1 + 1 = m from by omega, if_neg hnd] at h
          simpa using h
        have hle : ((m - 1) / c) * c ≤ m :=
          le_trans (Nat.div_mul_le_self _ _) (Nat.sub_le m 1)
        rw [hq]
        dsimp only
        rw [← tagSlice_snoc tb start (((m - 1) / c) * c) m hle,
          ← tagSlice_snoc tc start (((m - 1) / c) * c) m hle]

theorem pyRange_foldl {α β : Type} (tb : ℤ → α) (tc : ℤ → β)
    (start e : ℤ) (c : ℕ) (st : BatchState α β) :
    (pyRange start e).foldl (batchStepPure tb tc start (c : ℤ)) st =
      (List.range (e + 1 - start).toNat).foldl
        (natBatchStep tb tc start c) st := by
  rw [pyRange, List.foldl_map]
  rfl

theorem batchRunPure_closed {α β : Type} (tb : ℤ → α) (tc : ℤ → β)
    (start e : ℤ) (c : ℕ) (hc : 1 ≤ c) (hse : start ≤ e) :
    batchRunPure tb tc start e (c : ℤ) =
      expectedExports tb tc start (e + 1 - start).toNat c := by
  have hN : 1 ≤ (e + 1 - start).toNat := by omega
  rw [batchRunPure, pyRange_foldl,
    natBatch_invariant tb tc start c hc _ hN]
  unfold batchFinal expectedExports
  rw [if_pos (Nat.succ_pos _)]
  rw [List.range_succ, List.map_append, List.map_cons, List.map_nil]
  congr 1
  · apply List.map_congr_left
    intro k hk
    rw [List.mem_range] at hk
    have h1 : (k + 1) * c ≤ ((e + 1 - start).toNat - 1) / c * c :=
      Nat.mul_le_mul_right c hk
    have h2 : ((e + 1 - start).toNat - 1) / c * c ≤
        (e + 1 - start).toNat - 1 := Nat.div_mul_le_self _ _
    rw [min_eq_left (by omega : (k + 1) * c ≤ (e + 1 - start).toNat)]
  · have hdm : ((e + 1 - start).toNat - 1) / c * c +
        ((e + 1 - start).toNat - 1) % c = (e + 1 - start).toNat - 1 :=
      Nat.div_add_mod' _ _
    have hmlt : ((e + 1 - start).toNat - 1) % c < c :=
      Nat.mod_lt _ (by omega)
    rw [min_eq_right (show (e + 1 - start).toNat ≤
        (((e + 1 - start).toNat - 1) / c + 1) * c from by
      have : (((e + 1 - start).toNat - 1) / c + 1) * c =
          ((e + 1 - start).toNat - 1) / c * c + c := by ring
      omega)]

theorem batchRunE_ok {α β : Type} (tb : ℤ → α) (tc : ℤ → β)
    (start e c : ℤ) (hc : c ≠ 0) :
    batchRunE tb tc start e c =
      Except.ok (batchRunPure tb tc start e c) := by
  rw [batchRunE, batchRunPure]
  have hfold : ∀ (l : List ℤ) (st : BatchState α β),
      l.foldlM (batchStepE tb tc start c) st =
        Except.ok (l.foldl (batchStepPure tb tc start c) st) := by
    intro l
    induction l with
    | nil => intro st; rfl
    | cons i l ihl =>
      intro st
      rw [List.foldlM_cons, List.foldl_cons]
      rw [show batchStepE tb tc start c st i =
        Except.ok (batchStepPure tb tc start c st i) from by
          rw [batchStepE, if_neg hc]]
      exact ihl _
  rw [hfold]
  rfl

theorem batchRunPure_empty {α β : Type} (tb : ℤ → α) (tc : ℤ → β)
    (start e c : ℤ) (he : e < start) :
    batchRunPure tb tc start e c = [] := by
  rw [batchRunPure, pyRange, show (e + 1 - start).toNat = 0 from by omega,
    List.range_zero, List.map_nil, List.foldl_nil]
  rfl

/-- Claim C2: with capacity `c ≥ 1`, the batch runner never errors and
exports exactly `ceil(N/c)` plates for `N = e - start + 1 ≥ 1` tags, keyed
by the 1-based running plate counter; every plate but the last holds `c`
tags (both as body and as colored items), the last holds the remainder; an
empty range exports nothing; and the concrete scenario
`c = 6, start = 1, e = 13` yields three plates holding 6, 6 and 1 tags. -/
theorem claim_C2 {α β : Type} (tb : ℤ → α) (tc : ℤ → β) (start e : ℤ)
    (c : ℕ) (hc : 1 ≤ c) :
    batchRunE tb tc start e (c : ℤ) =
      Except.ok (if start ≤ e then
        expectedExports tb tc start (e + 1 - start).toNat c else []) ∧
    (∀ N : ℕ, 1 ≤ N →
      (expectedExports tb tc start N c).length = (N + c - 1) / c) ∧
    (∀ N : ℕ, (expectedExports tb tc start N c).map PlateExport.plate =
      (List.range ((N - 1) / c + 1)).map (fun k => k + 1)) ∧
    (∀ N k : ℕ, k + 1 < (N - 1) / c + 1 →
      ∃ ex, (expectedExports tb tc start N c)[k]? = some ex ∧
        ex.plate = k + 1 ∧ ex.body.length = c ∧ ex.colored.length = c) ∧
    (∀ N : ℕ, 1 ≤ N →
      ∃ ex, (expectedExports tb tc start N c)[(N - 1) / c]? = some ex ∧
        ex.plate = (N - 1) / c + 1 ∧
        ex.body.length = N - ((N - 1) / c) * c ∧
        ex.colored.length = N - ((N - 1) / c) * c) ∧
    (e < start → batchRunE tb tc start e (c : ℤ) = Except.ok []) ∧
    batchRunE (fun i : ℤ => i) (fun i : ℤ => i) 1 13 ((6 : ℕ) : ℤ) =
      Except.ok
        [{ plate := 1, body := [1, 2, 3, 4, 5, 6],
           colored := [1, 2, 3, 4, 5, 6] },
         { plate := 2, body := [7, 8, 9, 10, 11, 12],
           colored := [7, 8, 9, 10, 11, 12] },
         { plate := 3, body := [13], colored := [13] }] := by
  have hcz : ((c : ℕ) : ℤ) ≠ 0 := Int.natCast_ne_zero.mpr (by omega)
  refine ⟨?_, ?_, ?_, ?_, ?_, ?_, ?_⟩
  · rw [batchRunE_ok tb tc start e _ hcz]
    by_cases hse : start ≤ e
    · rw [if_pos hse, batchRunPure_closed tb tc start e c hc hse]
    · rw [if_neg hse, batchRunPure_empty tb tc start e _ (by omega)]
  · intro N hN
    simp only [expectedExports, List.length_map, List.length_range]
    rw [show N + c - 1 = (N - 1) + c from by omega,
      Nat.add_div_right _ (by omega)]
  · intro N
    rw [expectedExports, List.map_map]
    apply List.map_congr_left
    intro k _
    rfl
  · intro N k hk
    refine ⟨{ plate := k + 1,
              body := tagSlice tb start (k * c) (min ((k + 1) * c) N),
              colored := tagSlice tc start (k * c) (min ((k + 1) * c) N) },
      ?_, rfl, ?_, ?_⟩
    · rw [expectedExports, List.getElem?_map,
        List.getElem?_range (by omega : k < (N - 1) / c + 1)]
      rfl
    · show (tagSlice tb start (k * c) (min ((k + 1) * c) N)).length = c
      have h1 : (k + 1) * c ≤ (N - 1) / c * c :=
        Nat.mul_le_mul_right c (by omega)
      have h2 : (N - 1) / c * c ≤ N - 1 := Nat.div_mul_le_self _ _
      rw [tagSlice_length,
        min_eq_left (by omega : (k + 1) * c ≤ N),
        show (k + 1) * c = k * c + c from by ring]
      omega
    · show (tagSlice tc start (k * c) (min ((k + 1) * c) N)).length = c
      have h1 : (k + 1) * c ≤ (N - 1) / c * c :=
        Nat.mul_le_mul_right c (by omega)
      have h2 : (N - 1) / c * c ≤ N - 1 := Nat.div_mul_le_self _ _
      rw [tagSlice_length,
        min_eq_left (by omega : (k + 1) * c ≤ N),
        show (k + 1) * c = k * c + c from by ring]
      omega
  · intro N hN
    have hdm : (N - 1) / c * c + (N - 1) % c = N - 1 := Nat.div_add_mod' _ _
    have hmlt : (N - 1) % c < c := Nat.mod_lt _ (by omega)
    have hmin : min (((N - 1) / c + 1) * c) N = N := by
      rw [min_eq_right]
      have : ((N - 1) / c + 1) * c = (N - 1) / c * c + c := by ring
      omega
    refine ⟨{ plate := (N - 1) / c + 1,
              body := tagSlice tb start ((N - 1) / c * c)
                (min (((N - 1) / c + 1) * c) N),
              colored := tagSlice tc start ((N - 1) / c * c)
                (min (((N - 1) / c + 1) * c) N) },
      ?_, rfl, ?_, ?_⟩
    · rw [expectedExports, List.getElem?_map,
        List.getElem?_range (by omega : (N - 1) / c < (N - 1) / c + 1)]
      rfl
    · show (tagSlice tb start ((N - 1) / c * c)
        (min (((N - 1) / c + 1) * c) N)).length = N - (N - 1) / c * c
      rw [hmin, tagSlice_length]
    · show (tagSlice tc start ((N - 1) / c * c)
        (min (((N - 1) / c + 1) * c) N)).length = N - (N - 1) / c * c
      rw [hmin, tagSlice_length]
  · intro he
    rw [batchRunE_ok tb tc start e _ hcz,
      batchRunPure_empty tb tc start e _ he]
  · rfl

/-- Witness for claim C2 at `tb = tc = id`, `start = 1`, `e = 13`,
`c = 6`. -/
theorem claim_C2_witness :
    1 ≤ 6 ∧
    batchRunE (fun i : ℤ => i) (fun i : ℤ => i) 1 13 ((6 : ℕ) : ℤ) =
      Except.ok (if (1 : ℤ) ≤ 13 then
        expectedExports (fun i : ℤ => i) (fun i : ℤ => i) 1
          ((13 : ℤ) + 1 - 1).toNat 6 else []) :=
  ⟨by decide,
    (claim_C2 (fun i : ℤ => i) (fun i : ℤ => i) 1 13 6 (by decide)).1⟩

/-- A configuration whose computed plate capacity is zero: the default
configuration with `token_width = 300`, for which
`num_per_row = int(254 / 301) = 0`. -/
def c3Args : Args := { token_width := 300 }

/-- Claim C3 (code bug): with zero plate capacity the program performs no
InvalidConfiguration check at all; the batch loop instead hits `% 0` on
its first iteration and raises `ZeroDivisionError` (and `main` has already
cleared the output directory before this point). -/
theorem claim_C3_zero_capacity_behavior :
    tokens_per_plate c3Args = 0 ∧
    batchRunE (fun i : ℤ => i) (fun i : ℤ => i) c3Args.start_index
      c3Args.end_index (tokens_per_plate c3Args) =
      Except.error PyError.zeroDivision ∧
    mainExports (fun _ => [[true]]) c3Args =
      Except.error PyError.zeroDivision := by
  have h0 : tokens_per_plate c3Args = 0 := by
    have h1 : num_per_row c3Args = 0 := by
      rw [num_per_row, pyint, if_pos (by norm_num [c3Args])]
      rw [show c3Args.build_plate_width = 254 from rfl,
        show c3Args.token_width = 300 from rfl,
        show c3Args.build_plate_spacing = 1 from rfl]
      rw [Int.floor_eq_zero_iff]
      constructor <;> norm_num
    rw [tokens_per_plate, h1, zero_mul]
  refine ⟨h0, ?_, ?_⟩
  · rw [h0]
    rfl
  · rw [mainExports, h0]
    rfl

/-- Claim C1: for a configuration with positive plate and cell dimensions
and capacity ≥ 1, the code's `int(...)` truncations are the claimed
floors, the per-tag row/column/offset arithmetic at sequence position `p`
(tag index `start_index + p`) matches the claimed
`(p % tokens_per_plate) // num_per_row` and
`(p % tokens_per_plate) % num_per_row` formulas with offsets
`col*(token_width+spacing)` and `row*(token_height+spacing)`, and the tag
at position `p` lands in the plate numbered `p // tokens_per_plate + 1`
(the 1-based counter of the 0-based plate index `p // tokens_per_plate`)
of the batch runner's export list. -/
theorem claim_C1 (a : Args)
    (hpw : 0 < a.build_plate_width) (hph : 0 < a.build_plate_height)
    (htw : 0 < a.token_width + a.build_plate_spacing)
    (hth : 0 < a.token_height + a.build_plate_spacing)
    (hcap : 1 ≤ tokens_per_plate a) :
    num_per_row a =
      ⌊a.build_plate_width / (a.token_width + a.build_plate_spacing)⌋ ∧
    num_per_column a =
      ⌊a.build_plate_height / (a.token_height + a.build_plate_spacing)⌋ ∧
    (∀ p : ℕ,
      position_index a (a.start_index + (p : ℤ)) =
        (p : ℤ) % tokens_per_plate a ∧
      rowOf a (a.start_index + (p : ℤ)) =
        ((p : ℤ) % tokens_per_plate a) / num_per_row a ∧
      colOf a (a.start_index + (p : ℤ)) =
        ((p : ℤ) % tokens_per_plate a) % num_per_row a ∧
      x_offset a (a.start_index + (p : ℤ)) =
        ((((p : ℤ) % tokens_per_plate a) % num_per_row a : ℤ) : ℚ) *
          (a.token_width + a.build_plate_spacing) ∧
      y_offset a (a.start_index + (p : ℤ)) =
        ((((p : ℤ) % tokens_per_plate a) / num_per_row a : ℤ) : ℚ) *
          (a.token_height + a.build_plate_spacing)) ∧
    (∀ {α β : Type} (tb : ℤ → α) (tc : ℤ → β) (e : ℤ),
      a.start_index ≤ e →
      batchRunPure tb tc a.start_index e (tokens_per_plate a) =
        expectedExports tb tc a.start_index
          (e + 1 - a.start_index).toNat (tokens_per_plate a).toNat) ∧
    (∀ {α β : Type} (tb : ℤ → α) (tc : ℤ → β) (N p : ℕ), p < N →
      ∃ ex, (expectedExports tb tc a.start_index N
          (tokens_per_plate a).toNat)[p / (tokens_per_plate a).toNat]? =
          some ex ∧
        ex.plate = p / (tokens_per_plate a).toNat + 1 ∧
        tb (a.start_index + (p : ℤ)) ∈ ex.body) := by
  have hqr : 0 ≤ a.build_plate_width /
      (a.token_width + a.build_plate_spacing) :=
    le_of_lt (div_pos hpw htw)
  have hqc : 0 ≤ a.build_plate_height /
      (a.token_height + a.build_plate_spacing) :=
    le_of_lt (div_pos hph hth)
  have hr0 : 0 ≤ num_per_row a := by
    rw [num_per_row, pyint, if_pos hqr]
    exact Int.floor_nonneg.mpr hqr
  have hc0 : 0 ≤ num_per_column a := by
    rw [num_per_column, pyint, if_pos hqc]
    exact Int.floor_nonneg.mpr hqc
  have hr1 : 1 ≤ num_per_row a := by
    rcases eq_or_lt_of_le hr0 with h | h
    · exfalso
      rw [tokens_per_plate, ← h, zero_mul] at hcap
      omega
    · omega
  have hcnat : ((tokens_per_plate a).toNat : ℤ) = tokens_per_plate a :=
    Int.toNat_of_nonneg (by omega)
  have hcnat1 : 1 ≤ (tokens_per_plate a).toNat := by omega
  refine ⟨?_, ?_, ?_, ?_, ?_⟩
  · rw [num_per_row, pyint, if_pos hqr]
  · rw [num_per_column, pyint, if_pos hqc]
  · intro p
    have harg : a.start_index + (p : ℤ) - a.start_index = (p : ℤ) := by ring
    have hpos : position_index a (a.start_index + (p : ℤ)) =
        (p : ℤ) % tokens_per_plate a := by
      rw [position_index, harg, Int.fmod_eq_emod _ (by omega)]
    have hrow : rowOf a (a.start_index + (p : ℤ)) =
        ((p : ℤ) % tokens_per_plate a) / num_per_row a := by
      rw [rowOf, hpos, Int.fdiv_eq_ediv _ (by omega)]
    have hcol : colOf a (a.start_index + (p : ℤ)) =
        ((p : ℤ) % tokens_per_plate a) % num_per_row a := by
      rw [colOf, hpos, Int.fmod_eq_emod _ (by omega)]
    refine ⟨hpos, hrow, hcol, ?_, ?_⟩
    · rw [x_offset, hcol]
    · rw [y_offset, hrow]
  · intro α β tb tc e hse
    rw [← hcnat]
    exact batchRunPure_closed tb tc a.start_index e _ hcnat1 hse
  · intro α β tb tc N p hpN
    have hq : p / (tokens_per_plate a).toNat ≤
        (N - 1) / (tokens_per_plate a).toNat :=
      Nat.div_le_div_right (by omega)
    have hdm : p / (tokens_per_plate a).toNat * (tokens_per_plate a).toNat +
        p % (tokens_per_plate a).toNat = p := Nat.div_add_mod' _ _
    have hmlt : p % (tokens_per_plate a).toNat <
        (tokens_per_plate a).toNat := Nat.mod_lt _ (by omega)
    refine ⟨{ plate := p / (tokens_per_plate a).toNat + 1,
              body := tagSlice tb a.start_index
                (p / (tokens_per_plate a).toNat *
                  (tokens_per_plate a).toNat)
                (min ((p / (tokens_per_plate a).toNat + 1) *
                  (tokens_per_plate a).toNat) N),
              colored := tagSlice tc a.start_index
                (p / (tokens_per_plate a).toNat *
                  (tokens_per_plate a).toNat)
                (min ((p / (tokens_per_plate a).toNat + 1) *
                  (tokens_per_plate a).toNat) N) },
      ?_, rfl, ?_⟩
    · rw [expectedExports, List.getElem?_map,
        List.getElem?_range (by omega :
          p / (tokens_per_plate a).toNat <
            (N - 1) / (tokens_per_plate a).toNat + 1)]
      rfl
    · show tb (a.start_index + (p : ℤ)) ∈ tagSlice tb a.start_index
        (p / (tokens_per_plate a).toNat * (tokens_per_plate a).toNat)
        (min ((p / (tokens_per_plate a).toNat + 1) *
          (tokens_per_plate a).toNat) N)
    
      rw [tagSlice]
      refine List.mem_map.mpr
        ⟨p - p / (tokens_per_plate a).toNat * (tokens_per_plate a).toNat,
          List.mem_range.mpr ?_, ?_⟩
      · have hlt : p < (p / (tokens_per_plate a).toNat + 1) *
            (tokens_per_plate a).toNat := by
          have : (p / (tokens_per_plate a).toNat + 1) *
              (tokens_per_plate a).toNat =
              p / (tokens_per_plate a).toNat * (tokens_per_plate a).toNat +
                (tokens_per_plate a).toNat := by ring
          omega
        omega
      · have hle : p / (tokens_per_plate a).toNat *
            (tokens_per_plate a).toNat ≤ p := by omega
        rw [Nat.cast_sub hle]
        congr 1
        push_cast
        ring

/-- A small configuration with easy numbers: 10×10 plate, 4×4 tokens,
spacing 1, so `num_per_row = num_per_column = 2` and capacity 4. -/
def gridArgs : Args :=
  { token_width := 4, token_height := 4, build_plate_width := 10,
    build_plate_height := 10 }

theorem gridArgs_num_per_row : num_per_row gridArgs = 2 := by
  rw [num_per_row, pyint, if_pos (by norm_num [gridArgs])]
  rw [show gridArgs.build_plate_width = 10 from rfl,
    show gridArgs.token_width = 4 from rfl,
    show gridArgs.build_plate_spacing = 1 from rfl,
    show (10 : ℚ) / (4 + 1) = ((2 : ℤ) : ℚ) from by norm_num]
  exact Int.floor_intCast 2

theorem gridArgs_num_per_column : num_per_column gridArgs = 2 := by
  rw [num_per_column, pyint, if_pos (by norm_num [gridArgs])]
  rw [show gridArgs.build_plate_height = 10 from rfl,
    show gridArgs.token_height = 4 from rfl,
    show gridArgs.build_plate_spacing = 1 from rfl,
    show (10 : ℚ) / (4 + 1) = ((2 : ℤ) : ℚ) from by norm_num]
  exact Int.floor_intCast 2

theorem gridArgs_capacity : tokens_per_plate gridArgs = 4 := by
  rw [tokens_per_plate, gridArgs_num_per_row, gridArgs_num_per_column]
  norm_num

/-- Witness for claim C1 at `gridArgs`. -/
theorem claim_C1_witness :
    ((0 : ℚ) < gridArgs.build_plate_width ∧
      (0 : ℚ) < gridArgs.build_plate_height ∧
      (0 : ℚ) < gridArgs.token_width + gridArgs.build_plate_spacing ∧
      (0 : ℚ) < gridArgs.token_height + gridArgs.build_plate_spacing ∧
      1 ≤ tokens_per_plate gridArgs) ∧
    num_per_row gridArgs =
      ⌊gridArgs.build_plate_width /
        (gridArgs.token_width + gridArgs.build_plate_spacing)⌋ :=
  ⟨⟨by norm_num [gridArgs], by norm_num [gridArgs], by norm_num [gridArgs],
      by norm_num [gridArgs], by rw [gridArgs_capacity]; norm_num⟩,
    (claim_C1 gridArgs (by norm_num [gridArgs]) (by norm_num [gridArgs])
      (by norm_num [gridArgs]) (by norm_num [gridArgs])
      (by rw [gridArgs_capacity]; norm_num)).1⟩

/-- The plate/row/column assignment of a sequence position `p ≥ 0`: the
row and column are the loop arithmetic of lines 163-165 of `main.py`
(evaluated at tag index `start_index + p`); the plate component
`p // tokens_per_plate` is the 0-based plate the batch runner places the
tag on (its 1-based running counter is this plus one — see `claim_C1`). -/
def assign (a : Args) (p : ℤ) : ℤ × ℤ × ℤ :=
  (Int.fdiv p (tokens_per_plate a), rowOf a (a.start_index + p),
    colOf a (a.start_index + p))

theorem assign_eq (a : Args) (hr : 1 ≤ num_per_row a)
    (hc : 1 ≤ tokens_per_plate a) (p : ℤ) :
    assign a p = (p / tokens_per_plate a,
      (p % tokens_per_plate a) / num_per_row a,
      (p % tokens_per_plate a) % num_per_row a) := by
  have harg : a.start_index + p - a.start_index = p := by ring
  rw [assign, rowOf, colOf, position_index, harg,
    Int.fdiv_eq_ediv _ (by omega : (0 : ℤ) ≤ tokens_per_plate a),
    Int.fmod_eq_emod _ (by omega : (0 : ℤ) ≤ tokens_per_plate a),
    Int.fdiv_eq_ediv _ (by omega : (0 : ℤ) ≤ num_per_row a),
    Int.fmod_eq_emod _ (by omega : (0 : ℤ) ≤ num_per_row a)]

/-- Claim C8: with per-row and per-column counts ≥ 1 the assignment map
is injective on sequence positions, every slot
`(plate k, row r, column s)` of the `num_per_column × num_per_row` grid is
hit by the position `k*capacity + r*num_per_row + s` (so restricted to a
single plate the map is a bijection onto the grid), position
`capacity - 1` is the last slot of plate 0, and position `capacity` is the
first slot of plate 1. -/
theorem claim_C8 (a : Args) (hr : 1 ≤ num_per_row a)
    (hcl : 1 ≤ num_per_column a) :
    (∀ p q : ℤ, 0 ≤ p → 0 ≤ q → assign a p = assign a q → p = q) ∧
    (∀ k r s : ℤ, 0 ≤ k → 0 ≤ r → r < num_per_column a → 0 ≤ s →
      s < num_per_row a →
      0 ≤ (r * num_per_row a + s) + k * tokens_per_plate a ∧
      assign a ((r * num_per_row a + s) + k * tokens_per_plate a) =
        (k, r, s)) ∧
    assign a (tokens_per_plate a - 1) =
      (0, num_per_column a - 1, num_per_row a - 1) ∧
    assign a (tokens_per_plate a) = (1, 0, 0) := by
  have hc : 1 ≤ tokens_per_plate a := by
    rw [tokens_per_plate]
    nlinarith
  refine ⟨?_, ?_, ?_, ?_⟩
  · intro p q hp hq heq
    rw [assign_eq a hr hc, assign_eq a hr hc] at heq
    simp only [Prod.mk.injEq] at heq
    obtain ⟨h1, h2, h3⟩ := heq
    have hA := Int.ediv_add_emod p (tokens_per_plate a)
    have hB := Int.ediv_add_emod q (tokens_per_plate a)
    have hA2 := Int.ediv_add_emod (p % tokens_per_plate a) (num_per_row a)
    have hB2 := Int.ediv_add_emod (q % tokens_per_plate a) (num_per_row a)
    rw [← h2, ← h3] at hB2
    have hmod : p % tokens_per_plate a = q % tokens_per_plate a := by
      linarith [hA2, hB2]
    rw [← h1, ← hmod] at hB
    linarith [hA, hB]
  · intro k r s hk hr0 hrlt hs0 hslt
    have hl0 : (0 : ℤ) ≤ r * num_per_row a + s := by nlinarith
    have hlc : r * num_per_row a + s < tokens_per_plate a := by
      rw [tokens_per_plate]
      nlinarith [mul_le_mul_of_nonneg_right
        (show r ≤ num_per_column a - 1 from by omega)
        (show (0 : ℤ) ≤ num_per_row a from by omega)]
    refine ⟨by nlinarith, ?_⟩
    rw [assign_eq a hr hc]
    simp only [Prod.mk.injEq]
    refine ⟨?_, ?_, ?_⟩
    · rw [Int.add_mul_ediv_right _ _ (by omega : tokens_per_plate a ≠ 0),
        Int.ediv_eq_zero_of_lt hl0 hlc, zero_add]
    · rw [Int.add_mul_emod_self, Int.emod_eq_of_lt hl0 hlc,
        show r * num_per_row a + s = s + r * num_per_row a from by ring,
        Int.add_mul_ediv_right _ _ (by omega : num_per_row a ≠ 0),
        Int.ediv_eq_zero_of_lt hs0 hslt, zero_add]
    · rw [Int.add_mul_emod_self, Int.emod_eq_of_lt hl0 hlc,
        show r * num_per_row a + s = s + r * num_per_row a from by ring,
        Int.add_mul_emod_self, Int.emod_eq_of_lt hs0 hslt]
  · rw [assign_eq a hr hc]
    have h1 : (0 : ℤ) ≤ tokens_per_plate a - 1 := by omega
    have h2 : tokens_per_plate a - 1 < tokens_per_plate a := by omega
    have hsplit : tokens_per_plate a - 1 =
        (num_per_row a - 1) + (num_per_column a - 1) * num_per_row a := by
      rw [tokens_per_plate]
      ring
    simp only [Prod.mk.injEq]
    refine ⟨Int.ediv_eq_zero_of_lt h1 h2, ?_, ?_⟩
    · rw [Int.emod_eq_of_lt h1 h2, hsplit,
        Int.add_mul_ediv_right _ _ (by omega : num_per_row a ≠ 0),
        Int.ediv_eq_zero_of_lt (by omega) (by omega), zero_add]
    · rw [Int.emod_eq_of_lt h1 h2, hsplit, Int.add_mul_emod_self,
        Int.emod_eq_of_lt (by omega) (by omega)]
  · rw [assign_eq a hr hc]
    simp only [Prod.mk.injEq]
    refine ⟨Int.ediv_self (by omega : tokens_per_plate a ≠ 0), ?_, ?_⟩
    · rw [Int.emod_self, Int.zero_ediv]
    · rw [Int.emod_self, Int.zero_emod]

/-- Witness for claim C8 at `gridArgs` (capacity 4, grid 2×2). -/
theorem claim_C8_witness :
    (1 ≤ num_per_row gridArgs ∧ 1 ≤ num_per_column gridArgs) ∧
    assign gridArgs (tokens_per_plate gridArgs) = (1, 0, 0) :=
  ⟨⟨by rw [gridArgs_num_per_row]; norm_num,
      by rw [gridArgs_num_per_column]; norm_num⟩,
    (claim_C8 gridArgs (by rw [gridArgs_num_per_row]; norm_num)
      (by rw [gridArgs_num_per_column]; norm_num)).2.2.2⟩

/-- Claim C10: the `text_font` setting has no effect on any produced
geometry.  Changing only `text_font` leaves every per-tag text relief,
colored overlay, carved body, and the whole list of exported plate
accumulators literally unchanged, because `add_text` renders with the
literal font "Helvetica" and is not even passed the setting. -/
theorem claim_C10 (enc : String → List (List Bool)) (a : Args)
    (f : String) :
    mainExports enc { a with text_font := f } = mainExports enc a ∧
    (∀ i, text_model { a with text_font := f } i = text_model a i) ∧
    (∀ i, text_model a i =
      Solid.color "black" (Solid.linearExtrude a.colored_print_depth
        (Solid.textShape (tag_text i) a.text_size "center" "top"
          "Helvetica"))) ∧
    (∀ i, tag_colored enc { a with text_font := f } i =
      tag_colored enc a i) ∧
    (∀ i, tag_body enc { a with text_font := f } i = tag_body enc a i) :=
  ⟨rfl, fun _ => rfl, fun _ => rfl, fun _ => rfl, fun _ => rfl⟩
